import Mathlib

/-!
SecureDelete (src/main.cpp): a shallow embedding and its verified properties.

The program walks a directory tree twice (a counting pass and, after a double
confirmation, a destroying pass), overwrites every file seven times and removes
it, and removes the directories.

Conventions of the embedding.

* The target is Win32 / MSVC: `long` and `time_t` are 32 bits wide, conversion
  to a narrower or signed type keeps the low 32 bits (`toLong`, `toULong`).
* Everything the operating system answers is an explicit input: whether a
  `CFile` call throws, what `time` returns, what `_findfirst` / `_findnext`
  enumerate, whether `rmdir` succeeds, the lines typed by the operator.
* Everything the program does to the outside world is recorded: `effects`
  lists the file-system calls in the order they are issued, `out` lists the
  prompts and the key messages printed.
* Loops that the source does not bound (the write loop, the `do ... while` of
  the final listing) take a `fuel` argument; running out of fuel stands for
  "still running".
-/

namespace SecureDelete

/-! ## Machine integers -/

/-- Value of a 32-bit `long` holding the low 32 bits of `x` (two's complement). -/
def toLong (x : Int) : Int := (x + 2147483648) % 4294967296 - 2147483648

/-- Value of a 32-bit `unsigned long` holding the low 32 bits of `x`. -/
def toULong (x : Int) : Int := x % 4294967296

/-- `#define PASSES 7`. -/
def PASSES : Nat := 7

/-- `sizeof buf` for `char buf [512]`. -/
def sizeofBuf : Int := 512

/-! ## One file: `DeleteFileSecurely` -/

/-- What `buf` holds when it is handed to `f.Write`: the result of the
`switch (pass)`. -/
inductive BufContent where
  | zeroes : BufContent
  | ones : BufContent
  | random (seed : Nat) : BufContent
deriving DecidableEq, Repr

/-- The `CFile` calls of `DeleteFileSecurely`, in the vocabulary of the source. -/
inductive FileOp where
  | openExclusive : FileOp
  | getLength : FileOp
  | seekToBegin : FileOp
  | write (data : BufContent) (count : Nat) : FileOp
  | flush : FileOp
  | close : FileOp
  | remove : FileOp
deriving DecidableEq, Repr

/-- The environment of one file: its length as `GetLength` reports it, which of
the `CFile` calls throw (`throws k` is the answer for the `k`-th call made on
this file, counted from 0), the text `GetErrorMessage` gives for the exception,
and the value `time` returns during pass `p`. -/
structure FileEnv where
  length : Nat
  throws : Nat → Bool
  errorMessage : String
  clock : Nat → Nat

/-- Result of running a piece of the `try` block: it ran to its end, a `CFile`
call threw (the trace ends with the call that threw), or the fuel ran out. -/
inductive Res where
  | done (trace : List FileOp) : Res
  | threw (trace : List FileOp) : Res
  | outOfFuel (trace : List FileOp) : Res
deriving DecidableEq, Repr

/-- Issue one `CFile` call: it is recorded, and it throws when the environment
says so. -/
def perform (throws : Nat → Bool) (trace : List FileOp) (op : FileOp) : Res :=
  if throws trace.length then Res.threw (trace ++ [op]) else Res.done (trace ++ [op])

/-- The seed handed to `srand` in a random pass: `srand (timer)` converts the
`time_t` to `unsigned int`. -/
def seedOfPass (clock : Nat → Nat) (pass : Nat) : Nat :=
  (toULong (clock pass)).toNat

/-- The `switch (pass)` that prepares `buf`. -/
def prepareBuf (clock : Nat → Nat) (pass : Nat) : BufContent :=
  match pass with
  | 0 => BufContent.zeroes
  | 1 => BufContent.ones
  | _ => BufContent.random (seedOfPass clock pass)

/-- The inner loop
`for (long offset = 0; offset < filelength; offset += sizeof buf)`.
`offset += sizeof buf` is computed in `unsigned long` and stored back into a
`long`; `bytes_to_write > sizeof buf` compares as `unsigned long`. -/
def writeLoop (throws : Nat → Bool) (data : BufContent) (filelength : Int) :
    Nat → Int → List FileOp → Res
  | 0, _, trace => Res.outOfFuel trace
  | fuel + 1, offset, trace =>
    if offset < filelength then
      let bytes_to_write := toLong (filelength - offset)
      let bytes_to_write :=
        if toULong bytes_to_write > sizeofBuf then sizeofBuf else bytes_to_write
      match perform throws trace (FileOp.write data (toULong bytes_to_write).toNat) with
      | Res.done trace1 =>
        writeLoop throws data filelength fuel (toLong (offset + sizeofBuf)) trace1
      | r => r
    else Res.done trace

/-- The body of `for (int pass = 0; pass < PASSES; pass++)`, for the passes
`pass, pass + 1, ...`, `remaining` of them. -/
def passLoop (env : FileEnv) (filelength : Int) (fuel : Nat) :
    Nat → Nat → List FileOp → Res
  | 0, _, trace => Res.done trace
  | remaining + 1, pass, trace =>
    match perform env.throws trace FileOp.seekToBegin with
    | Res.done trace1 =>
      match writeLoop env.throws (prepareBuf env.clock pass) filelength fuel 0 trace1 with
      | Res.done trace2 =>
        match perform env.throws trace2 FileOp.flush with
        | Res.done trace3 => passLoop env filelength fuel remaining (pass + 1) trace3
        | r => r
      | r => r
    | r => r

/-- The `try` block of `DeleteFileSecurely`, up to and including `f.Remove`. -/
def tryBlock (env : FileEnv) (fuel : Nat) : Res :=
  match perform env.throws [] FileOp.openExclusive with
  | Res.done trace1 =>
    match perform env.throws trace1 FileOp.getLength with
    | Res.done trace2 =>
      match passLoop env (toLong env.length) fuel PASSES 0 trace2 with
      | Res.done trace3 =>
        match perform env.throws trace3 FileOp.close with
        | Res.done trace4 => perform env.throws trace4 FileOp.remove
        | r => r
      | r => r
    | r => r
  | r => r

/-- An environment in which no `CFile` call throws. -/
def quietFile (length : Nat) : FileEnv :=
  { length := length, throws := fun _ => false, errorMessage := "", clock := fun _ => 0 }

/-! ## Global state -/

/-- A call that touches the file system: a `CFile` call on the file at `path`,
or `rmdir (path)`. -/
inductive Effect where
  | file (path : String) (op : FileOp) : Effect
  | rmdir (path : String) : Effect
deriving DecidableEq, Repr

/-- The four questions the program asks through `YesNo`. The two questions of
`QueryUser` carry the numbers they print. -/
inductive Prompt where
  | okToDelete (files directories : Int) : Prompt
  | absolutelySure (files directories : Int) : Prompt
  | showList : Prompt
  | showAgain : Prompt
deriving DecidableEq, Repr

/-- The printed lines that the properties below refer to. -/
inductive Out where
  | prompt (strMessage : Prompt) : Out
  | pleaseReply : Out
  | unableToFind (thisdir : String) : Out
  | error (message : String) : Out
  | deletesNotDone : Out
  | listed (entry : String) : Out
deriving DecidableEq, Repr

/-- The global variables of the program, with the two recordings `effects` and
`out`. The counters are `long` (`__int64` for the two sizes) in the source and
are kept as unbounded integers: they only overflow beyond 2^31 entries. -/
structure Globals where
  nErrors : Int
  nTotalFilesFound : Int
  nTotalFiles : Int
  nTotalDirectories : Int
  nTotalSize : Int
  nTotalFilesDeleted : Int
  nTotalDirectoriesDeleted : Int
  nTotalSizeDeleted : Int
  strCannotDeleteList : List String
  effects : List Effect
  out : List Out
deriving DecidableEq, Repr

/-- The state at program start. -/
def Globals.initial : Globals :=
  { nErrors := 0, nTotalFilesFound := 0, nTotalFiles := 0, nTotalDirectories := 0,
    nTotalSize := 0, nTotalFilesDeleted := 0, nTotalDirectoriesDeleted := 0,
    nTotalSizeDeleted := 0, strCannotDeleteList := [], effects := [], out := [] }

/-- `DeleteFileSecurely`: the `try` block followed by the success bookkeeping,
or the `catch` block. `none` means that a write loop was still running when the
fuel ran out. -/
def DeleteFileSecurely (fuel : Nat) (strFileName : String) (env : FileEnv)
    (g : Globals) : Option Globals :=
  match tryBlock env fuel with
  | Res.done trace =>
    some { g with
      effects := g.effects ++ trace.map (Effect.file strFileName)
      nTotalFilesDeleted := g.nTotalFilesDeleted + 1
      nTotalSizeDeleted := g.nTotalSizeDeleted + toLong env.length }
  | Res.threw trace =>
    some { g with
      effects := g.effects ++ trace.map (Effect.file strFileName)
      nErrors := g.nErrors + 1
      strCannotDeleteList := g.strCannotDeleteList ++ [env.errorMessage] }
  | Res.outOfFuel _ => none

/-- `DeleteDirectory`. `rmdirError` is the answer of `rmdir`: `none` for the
return value 0, `some text` for a failure whose `strerror (errno)` is `text`. -/
def DeleteDirectory (strDirectoryName : String) (rmdirError : Option String)
    (g : Globals) : Globals :=
  let g1 := { g with effects := g.effects ++ [Effect.rmdir strDirectoryName] }
  match rmdirError with
  | none => { g1 with nTotalDirectoriesDeleted := g1.nTotalDirectoriesDeleted + 1 }
  | some text =>
    { g1 with
      nErrors := g1.nErrors + 1
      strCannotDeleteList := g1.strCannotDeleteList ++ [strDirectoryName ++ " : " ++ text] }

/-! ## The directory tree as the enumeration calls show it -/

/-- What `_findfirst` and the following `_findnext` calls deliver for one
directory, entry after entry.

* `noMore`: `_findnext` returned -1.
* `file name size env next`: an entry without `_A_SUBDIR`; `size` is the size
  of the file in bytes, of which `fileinfo.size` (the 32-bit `_fsize_t`) holds
  the low 32 bits, and `env` the behaviour of the file when it is opened.
* `subdir name findError inner rmdirError next`: an entry with `_A_SUBDIR`
  (also the pseudo entries `.` and `..`). `findError` is `some e` when
  `_findfirst` inside this subdirectory returns -1 (`e` tells whether `errno`
  is `ENOENT`), otherwise `inner` is what the subdirectory enumerates;
  `rmdirError` is the answer `rmdir` gives for it.

A successful `_findfirst` always delivers a first entry, so the `while (true)`
loop of the source, which tests for the end after the body, is the iteration
over a `Scan` that starts with an entry. -/
inductive Scan where
  | noMore : Scan
  | file (name : String) (size : Nat) (env : FileEnv) (next : Scan) : Scan
  | subdir (name : String) (findError : Option Bool) (inner : Scan)
      (rmdirError : Option String) (next : Scan) : Scan

/-- The part of `ProcessDirectory` after the level-0 file test, with the
`while (true)` loop passed in as `loop thisdir`. -/
def directoryPart (loop : String → Globals → Option Globals)
    (dirname subdirname : String) (level : Nat) (findError : Option Bool)
    (g : Globals) : Option Globals :=
  let thisdir := if subdirname.isEmpty then dirname else dirname ++ "\\" ++ subdirname
  match findError with
  | some enoent =>
    if level ≠ 0 ∧ enoent = true then some g
    else some { g with out := g.out ++ [Out.unableToFind thisdir] }
  | none =>
    match loop thisdir g with
    | some g1 =>
      if level = 0 then some { g1 with nTotalDirectories := g1.nTotalDirectories + 1 }
      else some g1
    | none => none

/-- The `while (true)` loop of `ProcessDirectory` over the entries of
`thisdir`. The recursive call `ProcessDirectory (thisdir, fileinfo.name,
level + 1, bDelete)` is `directoryPart` at `level + 1`, where the level-0 file
test is skipped. -/
def scanLoop (fuel : Nat) (bDelete : Bool) :
    String → Nat → Scan → Globals → Option Globals
  | _, _, Scan.noMore, g => some g
  | thisdir, level, Scan.file name size env next, g =>
    let strFileName := thisdir ++ "\\" ++ name
    let g1 := { g with nTotalSize := g.nTotalSize + toULong size,
                       nTotalFiles := g.nTotalFiles + 1 }
    if bDelete then
      match DeleteFileSecurely fuel strFileName env g1 with
      | some g2 => scanLoop fuel bDelete thisdir level next g2
      | none => none
    else scanLoop fuel bDelete thisdir level next g1
  | thisdir, level, Scan.subdir name findError inner rmdirError next, g =>
    if name ≠ "." ∧ name ≠ ".." then
      match directoryPart (fun d g0 => scanLoop fuel bDelete d (level + 1) inner g0)
          thisdir name (level + 1) findError g with
      | some g1 =>
        let g2 := { g1 with nTotalDirectories := g1.nTotalDirectories + 1 }
        let g3 := if bDelete then DeleteDirectory (thisdir ++ "\\" ++ name) rmdirError g2
                  else g2
        scanLoop fuel bDelete thisdir level next g3
      | none => none
    else scanLoop fuel bDelete thisdir level next g

/-- What the file system shows at the path given to the program.
`status` is `some (m_size, env)` when `CFile::GetStatus` succeeds and the
attribute has no `_A_SUBDIR` (the path names a file); `findError`, `scan` are
the enumeration of the path as a directory and `rmdirError` the answer of
`rmdir` on the path. -/
structure RootEnv where
  status : Option (Nat × FileEnv)
  findError : Option Bool
  scan : Scan
  rmdirError : Option String

/-- `ProcessDirectory (dirname, subdirname, level, bDelete)`. -/
def ProcessDirectory (fuel : Nat) (status : Option (Nat × FileEnv))
    (findError : Option Bool) (scan : Scan)
    (dirname subdirname : String) (level : Nat) (bDelete : Bool)
    (g : Globals) : Option Globals :=
  match (if level = 0 then status else none) with
  | some (m_size, env) =>
    let g1 := { g with nTotalSize := g.nTotalSize + m_size, nTotalFiles := g.nTotalFiles + 1 }
    if bDelete then DeleteFileSecurely fuel dirname env g1 else some g1
  | none =>
    directoryPart (fun d g0 => scanLoop fuel bDelete d level scan g0)
      dirname subdirname level findError g

/-! ## The operator: `fgets`, `YesNo` and `QueryUser` -/

/-- `_istspace` in the C locale: space, `\t`, `\n`, `\v`, `\f`, `\r`. -/
def isspace (c : Char) : Bool :=
  c = ' ' || (9 ≤ c.toNat && c.toNat ≤ 13)

/-- `CString::MakeUpper` (C locale: the letters `a` to `z`). -/
def MakeUpper (s : List Char) : List Char := s.map Char.toUpper

/-- `CString::TrimLeft`. -/
def TrimLeft (s : List Char) : List Char := s.dropWhile isspace

/-- `CString::TrimRight`. -/
def TrimRight (s : List Char) : List Char := (s.reverse.dropWhile isspace).reverse

/-- The value of `strReply` after `strReply = buf; MakeUpper; TrimLeft;
TrimRight`, for the characters `text` that `fgets` put into `buf`: the
assignment reads `buf` up to its first NUL character. -/
def replyOf (text : List Char) : List Char :=
  TrimRight (TrimLeft (MakeUpper (text.takeWhile fun c => c ≠ Char.ofNat 0)))

/-- The test `strReply == "YES" || strReply == "NO" || strReply == "N"`. -/
def isAnswer (strReply : List Char) : Bool :=
  strReply = ['Y', 'E', 'S'] || strReply = ['N', 'O'] || strReply = ['N']

/-- What the successive calls `fgets (buf, sizeof buf, stdin)` deliver for the
characters `stdin` still to be read: each call takes characters up to and
including the next newline, but at most 511 of them (`room` counts how many the
call under way may still take, `taken` holds those it has taken); at the end of
the input a call delivers what it has taken, and a call that can take nothing
delivers nothing. -/
def fgetsFrom : List Char → Nat → List Char → List (List Char)
  | taken, _, [] => if taken = [] then [] else [taken]
  | taken, room, c :: rest =>
    if c = '\n' ∨ room ≤ 1 then (taken ++ [c]) :: fgetsFrom [] 511 rest
    else fgetsFrom (taken ++ [c]) (room - 1) rest

/-- The deliveries of all `fgets` calls on the input `stdin`. -/
def deliveries (stdin : List Char) : List (List Char) := fgetsFrom [] 511 stdin

/-- The value of a call of `YesNo`: an answer, or no value at all because the
call never returns (`never`: the input has ended and `buf` holds no answer, so
the loop prompts for ever), or a value the embedding does not determine
(`unknown`: the input has ended while the content of `buf` is not known). -/
inductive Reply where
  | answered (yes : Bool) : Reply
  | never : Reply
  | unknown : Reply
deriving DecidableEq, Repr

/-- What a call of `YesNo` (or `QueryUser`) leaves: its value, the deliveries
not yet read, the content of the global `buf` (`none` when it is not known) and
the output so far. -/
structure Answer where
  reply : Reply
  rest : List (List Char)
  buf : Option (List Char)
  out : List Out
deriving DecidableEq, Repr

/-- `YesNo`. `input` lists the deliveries the coming `fgets` calls will make.
The source does not test what `fgets` returns: at the end of the input `buf`
keeps its content and is read again, so the loop returns at once when `buf`
still holds an answer and never returns otherwise (of its endless output one
round is recorded). -/
def YesNo (strMessage : Prompt) : List (List Char) → Option (List Char) → List Out → Answer
  | [], none, out =>
    { reply := Reply.unknown, rest := [], buf := none, out := out ++ [Out.prompt strMessage] }
  | [], some text, out =>
    if isAnswer (replyOf text) then
      { reply := Reply.answered (decide (replyOf text = ['Y', 'E', 'S'])), rest := [],
        buf := some text, out := out ++ [Out.prompt strMessage] }
    else
      { reply := Reply.never, rest := [], buf := some text,
        out := out ++ [Out.prompt strMessage, Out.pleaseReply] }
  | text :: rest, _, out =>
    if isAnswer (replyOf text) then
      { reply := Reply.answered (decide (replyOf text = ['Y', 'E', 'S'])), rest := rest,
        buf := some text, out := out ++ [Out.prompt strMessage] }
    else YesNo strMessage rest (some text) (out ++ [Out.prompt strMessage, Out.pleaseReply])

/-- `QueryUser`. The megabyte figure only appears in the text of the second
question and is left out. -/
def QueryUser (files directories : Int) (input : List (List Char)) (buf : Option (List Char))
    (out : List Out) : Answer :=
  let first := YesNo (Prompt.okToDelete files directories) input buf out
  match first.reply with
  | Reply.answered true =>
    YesNo (Prompt.absolutelySure files directories) first.rest first.buf first.out
  | _ => first

/-! ## `main` -/

/-- How a run of `main` ends in the embedding: `return 0`; the input ended
while `buf` held no answer, so that `YesNo` prompts for ever (`endOfInput`);
the input ended while the content of `buf` was not known (`undetermined`); or
the fuel ran out. -/
inductive Exit where
  | returned : Exit
  | endOfInput : Exit
  | undetermined : Exit
  | outOfFuel : Exit
deriving DecidableEq, Repr

/-- The state reached and the way the run ended. -/
structure Run where
  g : Globals
  exit : Exit
deriving DecidableEq, Repr

/-- The loop `do { print the list } while (YesNo ("** Show list again? ..."))`. -/
def showLoop : Nat → List (List Char) → Option (List Char) → Globals → Run
  | 0, _, _, g => { g := g, exit := Exit.outOfFuel }
  | fuel + 1, input, buf, g =>
    let a := YesNo Prompt.showAgain input buf (g.out ++ g.strCannotDeleteList.map Out.listed)
    match a.reply with
    | Reply.answered true => showLoop fuel a.rest a.buf { g with out := a.out }
    | Reply.answered false => { g := { g with out := a.out }, exit := Exit.returned }
    | Reply.never => { g := { g with out := a.out }, exit := Exit.endOfInput }
    | Reply.unknown => { g := { g with out := a.out }, exit := Exit.undetermined }

/-- The `try` block of `main`, entered once the argument has been accepted:
`starting_point` is the argument without its trailing backslash, `root` what
the file system shows there, and `stdin` the operator's input, given in pieces
whose concatenation is the character stream. At program start `buf` holds
zeroes (the empty text). After the destroying pass `buf` holds what the last
`DeleteFileSecurely` left in it (random bytes or an error text): its content is
taken as not known. When a write loop of the destroying pass is still running
at the end of the fuel, the run is reported with `Exit.outOfFuel` and the state
in which that pass began. -/
def main (root : RootEnv) (starting_point : String) (stdin : List String)
    (fuel : Nat) : Run :=
  match ProcessDirectory fuel root.status root.findError root.scan
      starting_point "" 0 false Globals.initial with
  | none => { g := Globals.initial, exit := Exit.outOfFuel }
  | some g1 =>
    let g2 : Globals := { g1 with nTotalFilesFound := g1.nTotalFiles + g1.nTotalDirectories }
    if g2.nTotalFilesFound = 0 then
      { g := { g2 with out := g2.out ++ [Out.error "No files or directories found to delete"] },
        exit := Exit.returned }
    else
      let q := QueryUser g2.nTotalFiles g2.nTotalDirectories
        (deliveries (stdin.flatMap String.data)) (some []) g2.out
      match q.reply with
      | Reply.answered true =>
        let g3 : Globals :=
          { g2 with out := q.out, nTotalSize := 0, nTotalFiles := 0, nTotalDirectories := 0 }
        match ProcessDirectory fuel root.status root.findError root.scan
            starting_point "" 0 true g3 with
        | none => { g := g3, exit := Exit.outOfFuel }
        | some g4 =>
          let g5 : Globals := if g4.nErrors = 0 then DeleteDirectory starting_point root.rmdirError g4
                    else g4
          if g5.nErrors ≠ 0 then
            let a := YesNo Prompt.showList q.rest none g5.out
            match a.reply with
            | Reply.answered true => showLoop fuel a.rest a.buf { g5 with out := a.out }
            | Reply.answered false => { g := { g5 with out := a.out }, exit := Exit.returned }
            | Reply.never => { g := { g5 with out := a.out }, exit := Exit.endOfInput }
            | Reply.unknown => { g := { g5 with out := a.out }, exit := Exit.undetermined }
          else { g := g5, exit := Exit.returned }
      | Reply.answered false =>
        { g := { g2 with out := q.out ++ [Out.deletesNotDone] }, exit := Exit.returned }
      | Reply.never => { g := { g2 with out := q.out }, exit := Exit.endOfInput }
      | Reply.unknown => { g := { g2 with out := q.out }, exit := Exit.undetermined }

/-! ## Notions used to state the properties -/

/-- The 512 bytes of `buf` for each result of the `switch (pass)`. `rand seed i`
stands for the value of the `i`-th call of `rand ()` after `srand (seed)` (the
generator belongs to the C runtime); `a_rand` is its conversion to `short`,
copied low byte first. -/
def bufBytes (rand : Nat → Nat → Nat) : BufContent → List Nat
  | BufContent.zeroes => List.replicate 512 0
  | BufContent.ones => List.replicate 512 255
  | BufContent.random seed =>
    (List.range 256).flatMap fun i =>
      let a_rand := rand seed i % 65536
      [a_rand % 256, a_rand / 256]

/-- The byte counts of the `write` calls in a trace. -/
def writeSizes : List FileOp → List Nat
  | [] => []
  | FileOp.write _ count :: rest => count :: writeSizes rest
  | _ :: rest => writeSizes rest

/-- The byte counts of the `write` calls of a run that reached its end. -/
def doneWrites : Res → Option (List Nat)
  | Res.done trace => some (writeSizes trace)
  | _ => none

/-- The trace of a run of the `try` block in which every pass writes nothing. -/
def emptySweeps : List FileOp :=
  [FileOp.openExclusive, FileOp.getLength,
   FileOp.seekToBegin, FileOp.flush, FileOp.seekToBegin, FileOp.flush,
   FileOp.seekToBegin, FileOp.flush, FileOp.seekToBegin, FileOp.flush,
   FileOp.seekToBegin, FileOp.flush, FileOp.seekToBegin, FileOp.flush,
   FileOp.seekToBegin, FileOp.flush,
   FileOp.close, FileOp.remove]

/-- Whether an entry name is one of the pseudo entries `.` and `..`. -/
def isPseudo (name : String) : Bool := name = "." || name = ".."

/-- Number of files of the tree below a directory, as the enumeration shows it. -/
def numFiles : Scan → Nat
  | Scan.noMore => 0
  | Scan.file _ _ _ next => 1 + numFiles next
  | Scan.subdir name findError inner _ next =>
    if isPseudo name then numFiles next
    else (match findError with
          | none => numFiles inner
          | some _ => 0) + numFiles next

/-- Sum of the sizes of the files of the tree below a directory. -/
def totalBytes : Scan → Nat
  | Scan.noMore => 0
  | Scan.file _ size _ next => size + totalBytes next
  | Scan.subdir name findError inner _ next =>
    if isPseudo name then totalBytes next
    else (match findError with
          | none => totalBytes inner
          | some _ => 0) + totalBytes next

/-- Sum of the values `fileinfo.size` holds for the files of the tree below a
directory: the low 32 bits of each size. -/
def reportedBytes : Scan → Nat
  | Scan.noMore => 0
  | Scan.file _ size _ next => size % 4294967296 + reportedBytes next
  | Scan.subdir name findError inner _ next =>
    if isPseudo name then reportedBytes next
    else (match findError with
          | none => reportedBytes inner
          | some _ => 0) + reportedBytes next

/-- Every file entry of the enumeration is smaller than 4 GiB, so that
`fileinfo.size` holds its size. -/
def smallFiles : Scan → Bool
  | Scan.noMore => true
  | Scan.file _ size _ next => decide (size < 4294967296) && smallFiles next
  | Scan.subdir _ _ inner _ next => smallFiles inner && smallFiles next

/-- Every file entry of the enumeration has a length of at most `2^31 - 512`
bytes, and `fuel` lets the write loop of a pass over it run to its end. -/
def loopsEnd (fuel : Nat) : Scan → Bool
  | Scan.noMore => true
  | Scan.file _ _ env next =>
    decide (env.length ≤ 2147483136 ∧ (env.length + 511) / 512 < fuel) && loopsEnd fuel next
  | Scan.subdir _ _ inner _ next => loopsEnd fuel inner && loopsEnd fuel next

/-- Number of subdirectories of the tree below a directory (the directory
itself is not counted). -/
def numSubdirs : Scan → Nat
  | Scan.noMore => 0
  | Scan.file _ _ _ next => numSubdirs next
  | Scan.subdir name findError inner _ next =>
    if isPseudo name then numSubdirs next
    else 1 + (match findError with
              | none => numSubdirs inner
              | some _ => 0) + numSubdirs next

/-- The value of `thisdir` in `ProcessDirectory (dirname, subdirname, ...)`. -/
def thisdirOf (dirname subdirname : String) : String :=
  if subdirname.isEmpty then dirname else dirname ++ "\\" ++ subdirname

/-- The paths of the subdirectories of the tree below `thisdir`, children
before their parent, in the order of the enumeration. -/
def subdirPaths : String → Scan → List String
  | _, Scan.noMore => []
  | thisdir, Scan.file _ _ _ next => subdirPaths thisdir next
  | thisdir, Scan.subdir name findError inner _ next =>
    if isPseudo name then subdirPaths thisdir next
    else (match findError with
          | none => subdirPaths (thisdirOf thisdir name) inner
          | some _ => []) ++ [thisdir ++ "\\" ++ name] ++ subdirPaths thisdir next

/-- The paths handed to `rmdir`, in order. -/
def rmdirCalls : List Effect → List String
  | [] => []
  | Effect.rmdir path :: rest => path :: rmdirCalls rest
  | Effect.file _ _ :: rest => rmdirCalls rest

/-- A directory whose enumeration delivers nothing but `.` and `..`. -/
def onlyPseudo : Scan → Bool
  | Scan.noMore => true
  | Scan.file _ _ _ _ => false
  | Scan.subdir name _ _ _ next => isPseudo name && onlyPseudo next

/-- The two pseudo entries every directory enumerates first. -/
def dots (next : Scan) : Scan :=
  Scan.subdir "." none Scan.noMore none (Scan.subdir ".." none Scan.noMore none next)

/-- A root that is a single file of 10 bytes; nothing fails on the file, and
`rmdir` on its path fails because the path does not name a directory. -/
def singleFileRoot : RootEnv :=
  { status := some (10, quietFile 10), findError := some true, scan := Scan.noMore,
    rmdirError := some "No such file or directory" }

/-- A root directory without any file or subdirectory. -/
def emptyDirRoot : RootEnv :=
  { status := none, findError := none, scan := dots Scan.noMore, rmdirError := none }

/-- A root directory holding files of 3 and 0 bytes and one empty subdirectory;
nothing fails. -/
def scenarioB : RootEnv :=
  { status := none, findError := none, rmdirError := none,
    scan := dots (Scan.file "a.txt" 3 (quietFile 3) (Scan.file "b.txt" 0 (quietFile 0)
      (Scan.subdir "sub" none (dots Scan.noMore) none Scan.noMore))) }

/-- A file of 3 bytes on which nothing fails, overwritten while the clock
stands at 900000000: all passes fall into the same second. -/
def sameSecondFile : FileEnv :=
  { length := 3, throws := fun _ => false, errorMessage := "", clock := fun _ => 900000000 }

/-- The state `g` after `files` files of `bytes` bytes in total and `dirs`
directories have been counted and the lines `lines` printed. -/
def Globals.counted (g : Globals) (files bytes dirs : Nat) (lines : List Out) : Globals :=
  { g with
    nTotalFiles := g.nTotalFiles + files
    nTotalSize := g.nTotalSize + bytes
    nTotalDirectories := g.nTotalDirectories + dirs
    out := g.out ++ lines }

/-- The relation between the state `g` before and the state `g1` after a part
of the destroying pass that met `files` files and `dirs` subdirectories and
called `rmdir` on `paths`: the found-counters grow by these numbers, every file
and directory met is either counted as deleted or counted in `nErrors`, and
`strCannotDeleteList` grows with `nErrors`. -/
def Destroyed (g g1 : Globals) (files dirs : Nat) (paths : List String) : Prop :=
  rmdirCalls g1.effects = rmdirCalls g.effects ++ paths ∧
  g1.nTotalFiles = g.nTotalFiles + files ∧
  g1.nTotalDirectories = g.nTotalDirectories + dirs ∧
  g.nTotalFilesDeleted ≤ g1.nTotalFilesDeleted ∧
  g1.nTotalFilesDeleted ≤ g.nTotalFilesDeleted + files ∧
  g.nTotalDirectoriesDeleted ≤ g1.nTotalDirectoriesDeleted ∧
  g1.nTotalDirectoriesDeleted ≤ g.nTotalDirectoriesDeleted + dirs ∧
  (g1.nTotalFilesDeleted - g.nTotalFilesDeleted) +
      (g1.nTotalDirectoriesDeleted - g.nTotalDirectoriesDeleted) +
      (g1.nErrors - g.nErrors) = files + dirs ∧
  (g1.strCannotDeleteList.length : Int) =
      g.strCannotDeleteList.length + (g1.nErrors - g.nErrors) ∧
  g1.nTotalFilesFound = g.nTotalFilesFound

/-- The state in which `main` starts the destroying pass: `g1` is the state
after the counting pass, `out` the output after `QueryUser`. -/
def startDestroy (g1 : Globals) (out : List Out) : Globals :=
  { g1 with
    nTotalFilesFound := g1.nTotalFiles + g1.nTotalDirectories
    out := out
    nTotalSize := 0
    nTotalFiles := 0
    nTotalDirectories := 0 }

/-- The state after `main` has dealt with the root directory: `g4` is the state
after the destroying pass. -/
def afterRoot (starting_point : String) (rmdirError : Option String) (g4 : Globals) : Globals :=
  if g4.nErrors = 0 then DeleteDirectory starting_point rmdirError g4 else g4

/-- Issue the calls `ops` one after the other, stopping at the first that
throws. -/
def runOps (throws : Nat → Bool) : List FileOp → List FileOp → Res
  | [], trace => Res.done trace
  | op :: ops, trace =>
    match perform throws trace op with
    | Res.done trace1 => runOps throws ops trace1
    | r => r

/-- The byte counts of `count` consecutive blocks of at most 512 bytes that
start at `offset` in a file of `length` bytes. -/
def chunksFrom (length : Nat) : Nat → Nat → List Nat
  | 0, _ => []
  | count + 1, offset => min 512 (length - offset) :: chunksFrom length count (offset + 512)

/-- The byte counts of the blocks of at most 512 bytes that cover a file of
`length` bytes: `⌈length / 512⌉` of them. -/
def chunkSizes (length : Nat) : List Nat := chunksFrom length ((length + 511) / 512) 0

/-- One sweep over a file of `length` bytes with the buffer of pass `pass`:
seek to the start, the writes, flush. -/
def sweep (clock : Nat → Nat) (length : Nat) (pass : Nat) : List FileOp :=
  FileOp.seekToBegin ::
    ((chunkSizes length).map (FileOp.write (prepareBuf clock pass)) ++ [FileOp.flush])

/-- The sweeps of the passes `pass, pass + 1, ...`, `remaining` of them. -/
def sweepsFrom (clock : Nat → Nat) (length : Nat) : Nat → Nat → List FileOp
  | 0, _ => []
  | remaining + 1, pass => sweep clock length pass ++ sweepsFrom clock length remaining (pass + 1)

/-- The calls a complete run of the `try` block makes on a file whose whole
length is swept: open, length, `PASSES` sweeps, close, remove. -/
def fullTrace (env : FileEnv) : List FileOp :=
  [FileOp.openExclusive, FileOp.getLength] ++ sweepsFrom env.clock env.length PASSES 0 ++
    [FileOp.close, FileOp.remove]

/-- The calls recorded in a result. -/
def Res.trace : Res → List FileOp
  | Res.done trace => trace
  | Res.threw trace => trace
  | Res.outOfFuel trace => trace

/-! ## The write loop and the 32-bit `long` -/

theorem toLong_step (offset : Int) (h : offset % 512 = 0) :
    -2147483648 ≤ toLong (offset + sizeofBuf) ∧ toLong (offset + sizeofBuf) < 2147483648 ∧
      toLong (offset + sizeofBuf) % 512 = 0 := by
  unfold toLong sizeofBuf
  omega

/-- With `filelength = LONG_MAX` the loop test `offset < filelength` holds for
every value `offset` can take, so the loop is never left through its test. -/
theorem writeLoop_max_not_done (throws : Nat → Bool) (data : BufContent) :
    ∀ (fuel : Nat) (offset : Int) (trace tr : List FileOp),
      offset < 2147483648 → offset % 512 = 0 →
      writeLoop throws data 2147483647 fuel offset trace ≠ Res.done tr := by
  intro fuel
  induction fuel with
  | zero => intro offset trace tr _ _; simp [writeLoop]
  | succ n ih =>
    intro offset trace tr h2 h3
    have hlt : offset < 2147483647 := by omega
    obtain ⟨_, b, c⟩ := toLong_step offset h3
    simp only [writeLoop, hlt, if_true]
    unfold perform
    split_ifs <;> simp
    · exact ih _ _ _ b c
    · exact ih _ _ _ b c

/-- With `filelength = LONG_MAX` and no failing call, every unit of fuel is
spent on one more `write`. -/
theorem writeLoop_max_quiet (data : BufContent) :
    ∀ (fuel : Nat) (offset : Int) (trace : List FileOp),
      offset < 2147483648 → offset % 512 = 0 →
      ∃ tr, writeLoop (fun _ => false) data 2147483647 fuel offset trace = Res.outOfFuel tr ∧
        tr.length = trace.length + fuel := by
  intro fuel
  induction fuel with
  | zero => intro offset trace _ _; exact ⟨trace, by simp [writeLoop]⟩
  | succ n ih =>
    intro offset trace h2 h3
    have hlt : offset < 2147483647 := by omega
    obtain ⟨_, b, c⟩ := toLong_step offset h3
    obtain ⟨tr, h, hl⟩ := ih (toLong (offset + sizeofBuf))
      (trace ++ [FileOp.write data
        (toULong (if toULong (toLong (2147483647 - offset)) > sizeofBuf then sizeofBuf
          else toLong (2147483647 - offset))).toNat]) b c
    refine ⟨tr, ?_, ?_⟩
    · simp only [writeLoop, hlt, if_true, perform]
      simpa using h
    · rw [hl]; simp; omega

/-- C8: for the file length L = 2^31 - 1 = 2147483647 (below 2^31) the write
loop of a pass is never left through its loop test, whatever calls fail and
however long it runs; when no call fails it issues a write for every step it is
given, so after the 4194304 writes that cover the file it goes on writing. -/
theorem C8_write_loop_does_not_end_at_long_max :
    (∀ (throws : Nat → Bool) (data : BufContent) (fuel : Nat) (tr : List FileOp),
        writeLoop throws data (toLong 2147483647) fuel 0 [] ≠ Res.done tr) ∧
    (∀ (data : BufContent) (fuel : Nat),
        ∃ tr, writeLoop (fun _ => false) data (toLong 2147483647) fuel 0 [] = Res.outOfFuel tr ∧
          tr.length = fuel) := by
  have h : toLong 2147483647 = 2147483647 := by decide
  rw [h]
  constructor
  · intro throws data fuel tr
    exact writeLoop_max_not_done throws data fuel 0 [] tr (by decide) (by decide)
  · intro data fuel
    obtain ⟨tr, h1, h2⟩ := writeLoop_max_quiet data fuel 0 [] (by decide) (by decide)
    exact ⟨tr, h1, by simpa using h2⟩

/-- C1: for a file of L = 2^31 bytes on which no call fails, `DeleteFileSecurely`
succeeds (the file is removed and counted as deleted) although each of its seven
sweeps consists of the seek and the flush only: no byte is written. -/
theorem C1_two_gib_file_removed_without_a_write (fuel : Nat) (strFileName : String)
    (g : Globals) :
    tryBlock (quietFile 2147483648) (fuel + 1) = Res.done emptySweeps ∧
    writeSizes emptySweeps = [] ∧
    DeleteFileSecurely (fuel + 1) strFileName (quietFile 2147483648) g =
      some { g with
        effects := g.effects ++ emptySweeps.map (Effect.file strFileName)
        nTotalFilesDeleted := g.nTotalFilesDeleted + 1
        nTotalSizeDeleted := g.nTotalSizeDeleted + (-2147483648) } :=
  ⟨rfl, rfl, rfl⟩

/-- C10: the 32-bit `filelength` changes the length of large files. A file of
3 GiB (3221225472 bytes) gets the length -1073741824: it is removed without a
write and 1073741824 is subtracted from `nTotalSizeDeleted`. A file of
4 GiB + 1000 bytes gets the length 1000: each pass writes 512 + 488 bytes and 1000
is added to `nTotalSizeDeleted`. -/
theorem C10_long_filelength_truncates (fuel : Nat) (strFileName : String) (g : Globals) :
    toLong 3221225472 = -1073741824 ∧
    DeleteFileSecurely (fuel + 1) strFileName (quietFile 3221225472) g =
      some { g with
        effects := g.effects ++ emptySweeps.map (Effect.file strFileName)
        nTotalFilesDeleted := g.nTotalFilesDeleted + 1
        nTotalSizeDeleted := g.nTotalSizeDeleted + (-1073741824) } ∧
    toLong 4294968296 = 1000 ∧
    doneWrites (tryBlock (quietFile 4294968296) (fuel + 3)) =
      some [512, 488, 512, 488, 512, 488, 512, 488, 512, 488, 512, 488, 512, 488] ∧
    (DeleteFileSecurely (fuel + 3) strFileName (quietFile 4294968296) g).map
        (fun g1 => g1.nTotalSizeDeleted) = some (g.nTotalSizeDeleted + 1000) :=
  ⟨rfl, rfl, rfl, rfl, rfl⟩

/-! ## Lengths for which the write loop covers the file

For `0 ≤ L ≤ 2^31 - 512` neither the conversion of the length nor the loop
counter overflows, and the `try` block is the plain sequence `fullTrace`. -/

theorem runOps_append (throws : Nat → Bool) (a b : List FileOp) :
    ∀ trace, runOps throws (a ++ b) trace =
      match runOps throws a trace with
      | Res.done trace1 => runOps throws b trace1
      | r => r := by
  induction a with
  | nil => intro trace; rfl
  | cons op ops ih =>
    intro trace
    simp only [List.cons_append, runOps]
    cases perform throws trace op with
    | done t => exact ih t
    | threw t => rfl
    | outOfFuel t => rfl

theorem bytes_to_write_eq (length offset : Nat) (hlen : length ≤ 2147483136)
    (hlt : offset < length) :
    (toULong (if toULong (toLong ((length : Int) - (offset : Int))) > sizeofBuf
      then sizeofBuf else toLong ((length : Int) - (offset : Int)))).toNat =
      min 512 (length - offset) := by
  unfold toULong toLong sizeofBuf
  split_ifs <;> omega

theorem next_offset_eq (offset : Nat) (h : offset < 2147483136) :
    toLong ((offset : Int) + sizeofBuf) = ((offset + 512 : Nat) : Int) := by
  unfold toLong sizeofBuf
  push_cast
  omega

theorem blocks_left_step (length offset : Nat) (hlt : offset < length) :
    (length + 511 - offset) / 512 = (length + 511 - (offset + 512)) / 512 + 1 := by
  omega

theorem blocks_left_zero (length offset : Nat) (h : ¬ offset < length) :
    (length + 511 - offset) / 512 = 0 := by
  omega

/-- For a length up to `2^31 - 512` the write loop issues the writes of
`chunksFrom`, as long as no write throws. -/
theorem writeLoop_eq_runOps (throws : Nat → Bool) (data : BufContent) (length : Nat)
    (hlen : length ≤ 2147483136) :
    ∀ (count fuel offset : Nat) (trace : List FileOp),
      length ≤ offset + 512 * count → count < fuel →
      writeLoop throws data (length : Int) fuel (offset : Int) trace =
        runOps throws ((chunksFrom length ((length + 511 - offset) / 512) offset).map
          (FileOp.write data)) trace := by
  intro count
  induction count with
  | zero =>
    intro fuel offset trace h1 h2
    cases fuel with
    | zero => exact absurd h2 (Nat.lt_irrefl 0)
    | succ f =>
      have hge : ¬ offset < length := by
        rw [Nat.mul_zero, Nat.add_zero] at h1
        exact Nat.not_lt.2 h1
      have hnot : ¬ ((offset : Int) < (length : Int)) := by
        rw [Int.ofNat_lt]; exact hge
      simp only [writeLoop, hnot, if_false, blocks_left_zero length offset hge, chunksFrom,
        List.map_nil, runOps]
  | succ n ih =>
    intro fuel offset trace h1 h2
    cases fuel with
    | zero => exact absurd h2 (Nat.not_lt_zero _)
    | succ f =>
      by_cases hlt : offset < length
      · have hlt' : (offset : Int) < (length : Int) := Int.ofNat_lt.2 hlt
        have hb := bytes_to_write_eq length offset hlen hlt
        have ho := next_offset_eq offset (Nat.lt_of_lt_of_le hlt hlen)
        rw [blocks_left_step length offset hlt]
        simp only [writeLoop, hlt', if_true, hb, ho, chunksFrom, List.map_cons, runOps]
        have h1' : length ≤ offset + 512 + 512 * n := by
          rw [Nat.mul_succ] at h1
          rw [Nat.add_assoc, Nat.add_comm 512 (512 * n)]
          exact h1
        have h2' : n < f := Nat.lt_of_succ_lt_succ h2
        cases perform throws trace (FileOp.write data (min 512 (length - offset))) with
        | done t =>
          simp only
          exact ih f (offset + 512) t h1' h2'
        | threw t => rfl
        | outOfFuel t => rfl
      · have hnot : ¬ ((offset : Int) < (length : Int)) := by
          rw [Int.ofNat_lt]; exact hlt
        simp only [writeLoop, hnot, if_false, blocks_left_zero length offset hlt, chunksFrom,
          List.map_nil, runOps]
theorem sweepsFrom_succ (clock : Nat → Nat) (length remaining pass : Nat) :
    sweepsFrom clock length (remaining + 1) pass =
      FileOp.seekToBegin :: ((chunkSizes length).map (FileOp.write (prepareBuf clock pass)) ++
        (FileOp.flush :: sweepsFrom clock length remaining (pass + 1))) := by
  simp [sweepsFrom, sweep]

theorem passLoop_eq_runOps (env : FileEnv) (fuel : Nat) (hlen : env.length ≤ 2147483136)
    (hfuel : (env.length + 511) / 512 < fuel) :
    ∀ (remaining pass : Nat) (trace : List FileOp),
      passLoop env (env.length : Int) fuel remaining pass trace =
        runOps env.throws (sweepsFrom env.clock env.length remaining pass) trace := by
  intro remaining
  induction remaining with
  | zero => intro pass trace; rfl
  | succ n ih =>
    intro pass trace
    have hw : ∀ t, writeLoop env.throws (prepareBuf env.clock pass) (env.length : Int) fuel 0 t =
        runOps env.throws ((chunkSizes env.length).map (FileOp.write (prepareBuf env.clock pass)))
          t := by
      intro t
      have h := writeLoop_eq_runOps env.throws (prepareBuf env.clock pass) env.length hlen
        ((env.length + 511) / 512) fuel 0 t (by omega) hfuel
      simpa [chunkSizes] using h
    rw [sweepsFrom_succ]
    simp only [passLoop, runOps]
    cases perform env.throws trace FileOp.seekToBegin with
    | threw t => rfl
    | outOfFuel t => rfl
    | done t1 =>
      simp only
      rw [hw, runOps_append]
      cases runOps env.throws
          ((chunkSizes env.length).map (FileOp.write (prepareBuf env.clock pass))) t1 with
      | threw t => rfl
      | outOfFuel t => rfl
      | done t2 =>
        simp only [runOps]
        cases perform env.throws t2 FileOp.flush with
        | threw t => rfl
        | outOfFuel t => rfl
        | done t3 => exact ih (pass + 1) t3

theorem fullTrace_eq (env : FileEnv) :
    fullTrace env = FileOp.openExclusive :: FileOp.getLength ::
      (sweepsFrom env.clock env.length PASSES 0 ++ [FileOp.close, FileOp.remove]) := by
  simp [fullTrace]

/-- For a length up to `2^31 - 512` and enough fuel for one sweep, the `try`
block issues the calls of `fullTrace` in order and stops at the first that
throws. -/
theorem tryBlock_eq_runOps (env : FileEnv) (fuel : Nat) (hlen : env.length ≤ 2147483136)
    (hfuel : (env.length + 511) / 512 < fuel) :
    tryBlock env fuel = runOps env.throws (fullTrace env) [] := by
  have hL : toLong (env.length : Int) = (env.length : Int) := by
    unfold toLong; omega
  have hp := passLoop_eq_runOps env fuel hlen hfuel PASSES 0
  rw [fullTrace_eq]
  unfold tryBlock
  rw [hL]
  generalize sweepsFrom env.clock env.length PASSES 0 = sweeps at hp ⊢
  simp only [runOps]
  cases perform env.throws [] FileOp.openExclusive with
  | threw t => rfl
  | outOfFuel t => rfl
  | done t1 =>
    simp only
    cases perform env.throws t1 FileOp.getLength with
    | threw t => rfl
    | outOfFuel t => rfl
    | done t2 =>
      simp only
      rw [hp, runOps_append]
      cases runOps env.throws sweeps t2 with
      | threw t => rfl
      | outOfFuel t => rfl
      | done t3 =>
        simp only [runOps]
        cases perform env.throws t3 FileOp.close with
        | threw t => rfl
        | outOfFuel t => rfl
        | done t4 =>
          simp only
          cases perform env.throws t4 FileOp.remove <;> rfl

/-- The calls of a list are issued until one throws: either all of them are
issued and none throws, or the trace is the list up to and including the first
call that throws. -/
theorem runOps_cases (throws : Nat → Bool) (ops : List FileOp) :
    ∀ trace : List FileOp,
      (runOps throws ops trace = Res.done (trace ++ ops) ∧
        ∀ k, k < ops.length → throws (trace.length + k) = false) ∨
      (∃ k, k < ops.length ∧ runOps throws ops trace = Res.threw (trace ++ ops.take (k + 1)) ∧
        throws (trace.length + k) = true ∧ ∀ j, j < k → throws (trace.length + j) = false) := by
  induction ops with
  | nil => intro trace; exact Or.inl ⟨by simp [runOps], by simp⟩
  | cons op ops ih =>
    intro trace
    by_cases ht : throws trace.length = true
    · refine Or.inr ⟨0, by simp, ?_, by simpa using ht, by simp⟩
      simp [runOps, perform, ht]
    · have ht' : throws trace.length = false := by simpa using ht
      have e : runOps throws (op :: ops) trace = runOps throws ops (trace ++ [op]) := by
        simp [runOps, perform, ht']
      rw [e]
      rcases ih (trace ++ [op]) with ⟨h1, h2⟩ | ⟨k, hk, h1, h2, h3⟩
      · refine Or.inl ⟨by rw [h1]; simp, ?_⟩
        intro k hk
        cases k with
        | zero => simpa using ht'
        | succ j =>
          have := h2 j (by simpa using hk)
          simpa [Nat.add_assoc, Nat.add_comm 1 j] using this
      · refine Or.inr ⟨k + 1, by simpa using hk, by rw [h1]; simp, ?_, ?_⟩
        · simpa [Nat.add_assoc, Nat.add_comm 1 k] using h2
        · intro j hj
          cases j with
          | zero => simpa using ht'
          | succ i =>
            have := h3 i (by omega)
            simpa [Nat.add_assoc, Nat.add_comm 1 i] using this

theorem chunksFrom_props (length : Nat) :
    ∀ (count offset : Nat), length ≤ offset + 512 * count →
      (count = 0 ∨ offset + 512 * (count - 1) < length) →
      (chunksFrom length count offset).length = count ∧
      (chunksFrom length count offset).sum = length - offset ∧
      (∀ x ∈ chunksFrom length count offset, 1 ≤ x ∧ x ≤ 512) ∧
      (∀ x ∈ (chunksFrom length count offset).dropLast, x = 512) := by
  intro count
  induction count with
  | zero =>
    intro offset h1 _
    simp only [chunksFrom, List.length_nil, List.sum_nil, List.not_mem_nil, false_implies,
      implies_true, List.dropLast_nil, and_true, true_and]
    omega
  | succ n ih =>
    intro offset h1 h2
    have hlt : offset + 512 * n < length := by
      rcases h2 with h | h
      · omega
      · simpa using h
    obtain ⟨a, b, c, d⟩ := ih (offset + 512) (by omega) (by
      cases n with
      | zero => exact Or.inl rfl
      | succ m => right; simp only [Nat.add_sub_cancel] at *; omega)
    refine ⟨by simp [chunksFrom, a], ?_, ?_, ?_⟩
    · simp only [chunksFrom, List.sum_cons, b]
      omega
    · intro x hx
      simp only [chunksFrom, List.mem_cons] at hx
      rcases hx with h | h
      · omega
      · exact c x h
    · intro x hx
      cases n with
      | zero => simp [chunksFrom] at hx
      | succ m =>
        have hne : chunksFrom length (m + 1) (offset + 512) ≠ [] := by
          simp [chunksFrom]
        simp only [chunksFrom] at hx hne d
        rw [List.dropLast_cons_of_ne_nil hne] at hx
        rcases List.mem_cons.1 hx with h | h
        · omega
        · exact d x h

/-- The blocks that cover a file of `length` bytes: `⌈length / 512⌉` blocks of
1 to 512 bytes, all but the last of 512 bytes, `length` bytes in total. -/
theorem chunkSizes_props (length : Nat) :
    (chunkSizes length).length = (length + 511) / 512 ∧
    (chunkSizes length).sum = length ∧
    (∀ x ∈ chunkSizes length, 1 ≤ x ∧ x ≤ 512) ∧
    (∀ x ∈ (chunkSizes length).dropLast, x = 512) := by
  have h := chunksFrom_props length ((length + 511) / 512) 0 (by omega) (by omega)
  simpa [chunkSizes] using h

/-- The write loop of one pass for a length `L ≤ 2^31 - 512`, when no write
fails: it ends and has issued `⌈L / 512⌉` writes of 1 to 512 bytes, all but the
last of 512 bytes, `L` bytes in total (none for `L = 0`). -/
theorem writeLoop_covers_file (data : BufContent) (L fuel : Nat) (hL : L ≤ 2147483136)
    (hfuel : (L + 511) / 512 < fuel) :
    writeLoop (fun _ => false) data (toLong L) fuel 0 [] =
      Res.done ((chunkSizes L).map (FileOp.write data)) ∧
    (chunkSizes L).length = (L + 511) / 512 ∧
    (chunkSizes L).sum = L ∧
    (∀ x ∈ chunkSizes L, 1 ≤ x ∧ x ≤ 512) ∧
    (∀ x ∈ (chunkSizes L).dropLast, x = 512) := by
  refine ⟨?_, chunkSizes_props L⟩
  have hl : toLong (L : Int) = (L : Int) := by unfold toLong; omega
  have h := writeLoop_eq_runOps (fun _ => false) data L hL ((L + 511) / 512) fuel 0 []
    (by omega) hfuel
  rw [hl]
  simp only [Nat.cast_zero, Nat.sub_zero] at h
  rw [h]
  rcases runOps_cases (fun _ => false) ((chunkSizes L).map (FileOp.write data)) [] with
    ⟨h1, _⟩ | ⟨k, _, _, h2, _⟩
  · simpa [chunkSizes] using h1
  · simp at h2

theorem writeSizes_append (a b : List FileOp) :
    writeSizes (a ++ b) = writeSizes a ++ writeSizes b := by
  induction a with
  | nil => rfl
  | cons x xs ih => cases x <;> simp [writeSizes, ih]

theorem writeSizes_writes (data : BufContent) (sizes : List Nat) :
    writeSizes (sizes.map (FileOp.write data)) = sizes := by
  induction sizes with
  | nil => rfl
  | cons x xs ih => simp [writeSizes, ih]

/-- A sweep writes the whole length, in blocks. -/
theorem writeSizes_sweep (clock : Nat → Nat) (length pass : Nat) :
    writeSizes (sweep clock length pass) = chunkSizes length := by
  simp [sweep, writeSizes, writeSizes_append, writeSizes_writes]

theorem remove_not_mem_sweepsFrom (clock : Nat → Nat) (length : Nat) :
    ∀ (remaining pass : Nat), FileOp.remove ∉ sweepsFrom clock length remaining pass := by
  intro remaining
  induction remaining with
  | zero => intro pass; simp [sweepsFrom]
  | succ n ih =>
    intro pass
    have := ih (pass + 1)
    simp [sweepsFrom, sweep, this]

/-- In `fullTrace` the only `remove` is the last call. -/
theorem remove_not_mem_take_fullTrace (env : FileEnv) (n : Nat)
    (h : n < (fullTrace env).length) : FileOp.remove ∉ (fullTrace env).take n := by
  have e : fullTrace env = ([FileOp.openExclusive, FileOp.getLength] ++
      sweepsFrom env.clock env.length PASSES 0 ++ [FileOp.close]) ++ [FileOp.remove] := by
    simp [fullTrace]
  rw [e] at h ⊢
  rw [List.take_append_of_le_length (by simp at h ⊢; omega)]
  intro hmem
  have hm := List.mem_of_mem_take hmem
  have := remove_not_mem_sweepsFrom env.clock env.length PASSES 0
  simp [this] at hm

/-- `DeleteFileSecurely` on a file of length `L ≤ 2^31 - 512`, with enough fuel
for one sweep: it returns, and

* either no call throws: the calls are open, length, `PASSES` sweeps (each a
  seek, writes of `L` bytes in total, a flush), close and one final remove, the
  file is counted in `nTotalFilesDeleted` and `L` is added to
  `nTotalSizeDeleted`;
* or the first call that throws ends the sequence: when it is not the remove
  itself no remove is ever issued, the deleted-counters stay, `nErrors` grows by
  one and one entry is added to `strCannotDeleteList`. -/
theorem DeleteFileSecurely_in_range (fuel : Nat) (strFileName : String) (env : FileEnv)
    (g : Globals) (hlen : env.length ≤ 2147483136) (hfuel : (env.length + 511) / 512 < fuel) :
    ((∀ k, k < (fullTrace env).length → env.throws k = false) ∧
      DeleteFileSecurely fuel strFileName env g =
        some { g with
          effects := g.effects ++ (fullTrace env).map (Effect.file strFileName)
          nTotalFilesDeleted := g.nTotalFilesDeleted + 1
          nTotalSizeDeleted := g.nTotalSizeDeleted + env.length }) ∨
    (∃ k, k < (fullTrace env).length ∧ env.throws k = true ∧
      (∀ j, j < k → env.throws j = false) ∧
      (k + 1 < (fullTrace env).length → FileOp.remove ∉ (fullTrace env).take (k + 1)) ∧
      DeleteFileSecurely fuel strFileName env g =
        some { g with
          effects := g.effects ++ ((fullTrace env).take (k + 1)).map (Effect.file strFileName)
          nErrors := g.nErrors + 1
          strCannotDeleteList := g.strCannotDeleteList ++ [env.errorMessage] }) := by
  have hL : toLong (env.length : Int) = (env.length : Int) := by
    unfold toLong; omega
  unfold DeleteFileSecurely
  rw [tryBlock_eq_runOps env fuel hlen hfuel]
  rcases runOps_cases env.throws (fullTrace env) [] with ⟨h1, h2⟩ | ⟨k, hk, h1, h2, h3⟩
  · left
    refine ⟨by simpa using h2, ?_⟩
    rw [h1]
    simp only [List.nil_append, hL]
  · right
    refine ⟨k, hk, by simpa using h2, by simpa using h3,
      fun h => remove_not_mem_take_fullTrace env (k + 1) h, ?_⟩
    rw [h1]
    simp only [List.nil_append]

/-! ## A failed call ends the work on the file, whatever the length -/

theorem perform_trace (throws : Nat → Bool) (trace : List FileOp) (op : FileOp) :
    (perform throws trace op).trace = trace ++ [op] := by
  unfold perform
  split_ifs <;> rfl

theorem perform_cases (throws : Nat → Bool) (trace : List FileOp) (op : FileOp) :
    perform throws trace op = Res.done (trace ++ [op]) ∨
      perform throws trace op = Res.threw (trace ++ [op]) := by
  unfold perform
  split_ifs
  · exact Or.inr rfl
  · exact Or.inl rfl

/-- One more turn of the write loop, when the loop test holds. -/
theorem writeLoop_step (throws : Nat → Bool) (data : BufContent) (filelength : Int)
    (fuel : Nat) (offset : Int) (trace : List FileOp) (h : offset < filelength) :
    writeLoop throws data filelength (fuel + 1) offset trace =
      match perform throws trace (FileOp.write data
        (toULong (if toULong (toLong (filelength - offset)) > sizeofBuf then sizeofBuf
          else toLong (filelength - offset))).toNat) with
      | Res.done trace1 =>
        writeLoop throws data filelength fuel (toLong (offset + sizeofBuf)) trace1
      | r => r := by
  rw [writeLoop, if_pos h]
  try rfl

/-- The write loop adds nothing but writes to the trace. -/
theorem writeLoop_trace (throws : Nat → Bool) (data : BufContent) (filelength : Int) :
    ∀ (fuel : Nat) (offset : Int) (trace : List FileOp),
      ∃ ws, (writeLoop throws data filelength fuel offset trace).trace = trace ++ ws ∧
        FileOp.remove ∉ ws := by
  intro fuel
  induction fuel with
  | zero => intro offset trace; exact ⟨[], by simp [writeLoop, Res.trace]⟩
  | succ n ih =>
    intro offset trace
    by_cases h : offset < filelength
    · obtain ⟨count, e⟩ : ∃ count, writeLoop throws data filelength (n + 1) offset trace =
          match perform throws trace (FileOp.write data count) with
          | Res.done trace1 =>
            writeLoop throws data filelength n (toLong (offset + sizeofBuf)) trace1
          | r => r := ⟨_, writeLoop_step throws data filelength n offset trace h⟩
      rw [e]
      rcases perform_cases throws trace (FileOp.write data count) with hp | hp
      · rw [hp]
        simp only
        obtain ⟨ws, h1, h2⟩ := ih (toLong (offset + sizeofBuf))
          (trace ++ [FileOp.write data count])
        exact ⟨FileOp.write data count :: ws, by rw [h1]; simp, by simp [h2]⟩
      · rw [hp]
        exact ⟨[FileOp.write data count], by simp [Res.trace], by simp⟩
    · exact ⟨[], by simp [writeLoop, h, Res.trace]⟩

/-- The pass loop adds nothing but seeks, writes and flushes to the trace. -/
theorem passLoop_trace (env : FileEnv) (filelength : Int) (fuel : Nat) :
    ∀ (remaining pass : Nat) (trace : List FileOp),
      ∃ ws, (passLoop env filelength fuel remaining pass trace).trace = trace ++ ws ∧
        FileOp.remove ∉ ws := by
  intro remaining
  induction remaining with
  | zero => intro pass trace; exact ⟨[], by simp [passLoop, Res.trace]⟩
  | succ n ih =>
    intro pass trace
    simp only [passLoop]
    rcases perform_cases env.throws trace FileOp.seekToBegin with hp | hp
    · rw [hp]
      simp only
      obtain ⟨ws, h1, h2⟩ := writeLoop_trace env.throws (prepareBuf env.clock pass) filelength
        fuel 0 (trace ++ [FileOp.seekToBegin])
      cases hw : writeLoop env.throws (prepareBuf env.clock pass) filelength fuel 0
          (trace ++ [FileOp.seekToBegin]) with
      | threw t =>
        rw [hw] at h1
        exact ⟨FileOp.seekToBegin :: ws, by simp only [Res.trace] at h1 ⊢; rw [h1]; simp,
          by simp [h2]⟩
      | outOfFuel t =>
        rw [hw] at h1
        exact ⟨FileOp.seekToBegin :: ws, by simp only [Res.trace] at h1 ⊢; rw [h1]; simp,
          by simp [h2]⟩
      | done t =>
        rw [hw] at h1
        simp only [Res.trace] at h1
        simp only
        rcases perform_cases env.throws t FileOp.flush with hf | hf
        · rw [hf]
          simp only
          obtain ⟨ws2, h3, h4⟩ := ih (pass + 1) (t ++ [FileOp.flush])
          refine ⟨FileOp.seekToBegin :: (ws ++ FileOp.flush :: ws2), ?_, by simp [h2, h4]⟩
          rw [h3, h1]; simp
        · rw [hf]
          refine ⟨FileOp.seekToBegin :: (ws ++ [FileOp.flush]), ?_, by simp [h2]⟩
          simp only [Res.trace, h1]; simp
    · rw [hp]
      exact ⟨[FileOp.seekToBegin], by simp [Res.trace], by simp⟩

/-- In every run of the `try` block, for every length: `remove` is issued at
most once, as the last call, and a run that ends with an exception has issued
no `remove` before the call that threw. -/
theorem tryBlock_remove_last (env : FileEnv) (fuel : Nat) :
    FileOp.remove ∉ (tryBlock env fuel).trace.dropLast ∧
    ∀ tr, tryBlock env fuel = Res.done tr → tr.getLast? = some FileOp.remove := by
  unfold tryBlock
  rcases perform_cases env.throws [] FileOp.openExclusive with hp | hp
  · rw [hp]
    simp only
    rcases perform_cases env.throws ([] ++ [FileOp.openExclusive]) FileOp.getLength with hq | hq
    · rw [hq]
      simp only
      obtain ⟨ws, h1, h2⟩ := passLoop_trace env (toLong env.length) fuel PASSES 0
        ([] ++ [FileOp.openExclusive] ++ [FileOp.getLength])
      cases hl : passLoop env (toLong env.length) fuel PASSES 0
          ([] ++ [FileOp.openExclusive] ++ [FileOp.getLength]) with
      | threw t =>
        rw [hl] at h1
        simp only [Res.trace] at h1
        refine ⟨?_, by simp⟩
        simp only [Res.trace, h1]
        intro hm
        have := List.mem_of_mem_dropLast hm
        simp [h2] at this
      | outOfFuel t =>
        rw [hl] at h1
        simp only [Res.trace] at h1
        refine ⟨?_, by simp⟩
        simp only [Res.trace, h1]
        intro hm
        have := List.mem_of_mem_dropLast hm
        simp [h2] at this
      | done t =>
        rw [hl] at h1
        simp only [Res.trace] at h1
        simp only
        rcases perform_cases env.throws t FileOp.close with hc | hc
        · rw [hc]
          simp only
          rcases perform_cases env.throws (t ++ [FileOp.close]) FileOp.remove with hr | hr
          · rw [hr]
            refine ⟨?_, by simp⟩
            simp only [Res.trace, List.dropLast_concat, h1]
            simp [h2]
          · rw [hr]
            refine ⟨?_, by simp⟩
            simp only [Res.trace, List.dropLast_concat, h1]
            simp [h2]
        · rw [hc]
          refine ⟨?_, by simp⟩
          simp only [Res.trace, List.dropLast_concat, h1]
          simp [h2]
    · rw [hq]
      exact ⟨by simp [Res.trace], by simp⟩
  · rw [hp]
    exact ⟨by simp [Res.trace], by simp⟩

/-- `DeleteFileSecurely`, for every length: when it returns, either the `try`
block ran to its end (the last call is the `remove`, the file is counted as
deleted, no failure is recorded), or a call threw: no `remove` was issued
before it, the deleted-counters are unchanged, `nErrors` has grown by one and
`strCannotDeleteList` by one entry. -/
theorem DeleteFileSecurely_outcome (fuel : Nat) (strFileName : String) (env : FileEnv)
    (g g1 : Globals) (h : DeleteFileSecurely fuel strFileName env g = some g1) :
    (∃ tr, tryBlock env fuel = Res.done tr ∧ tr.getLast? = some FileOp.remove ∧
      FileOp.remove ∉ tr.dropLast ∧
      g1.effects = g.effects ++ tr.map (Effect.file strFileName) ∧
      g1.nTotalFilesDeleted = g.nTotalFilesDeleted + 1 ∧
      g1.nTotalSizeDeleted = g.nTotalSizeDeleted + toLong env.length ∧
      g1.nErrors = g.nErrors ∧ g1.strCannotDeleteList = g.strCannotDeleteList) ∨
    (∃ tr, tryBlock env fuel = Res.threw tr ∧ FileOp.remove ∉ tr.dropLast ∧
      g1.effects = g.effects ++ tr.map (Effect.file strFileName) ∧
      g1.nTotalFilesDeleted = g.nTotalFilesDeleted ∧
      g1.nTotalSizeDeleted = g.nTotalSizeDeleted ∧
      g1.nErrors = g.nErrors + 1 ∧
      g1.strCannotDeleteList = g.strCannotDeleteList ++ [env.errorMessage]) := by
  have hr := tryBlock_remove_last env fuel
  unfold DeleteFileSecurely at h
  cases ht : tryBlock env fuel with
  | done tr =>
    rw [ht] at h hr
    simp only [Option.some.injEq] at h
    subst h
    exact Or.inl ⟨tr, rfl, hr.2 tr rfl, hr.1, rfl, rfl, rfl, rfl, rfl⟩
  | threw tr =>
    rw [ht] at h hr
    simp only [Option.some.injEq] at h
    subst h
    exact Or.inr ⟨tr, rfl, hr.1, rfl, rfl, rfl, rfl, rfl⟩
  | outOfFuel tr =>
    rw [ht] at h
    simp at h

/-! ## The random passes -/

/-- C9: a file of 3 bytes is overwritten while `time` returns 900000000 in
every pass (the whole run falls into one second). `DeleteFileSecurely` succeeds
and the passes 2 to 6 hand the same seed to `srand`, so its five random passes
write the same buffer five times; for every generator behind `rand` the
buffers of two consecutive random passes are bit-identical. -/
theorem C9_passes_in_one_second_write_the_same_buffer :
    DeleteFileSecurely 2 "C:\\f.bin" sameSecondFile Globals.initial =
      some { Globals.initial with
        nTotalFilesDeleted := 1
        nTotalSizeDeleted := 3
        effects := List.map (Effect.file "C:\\f.bin")
          [FileOp.openExclusive, FileOp.getLength,
           FileOp.seekToBegin, FileOp.write BufContent.zeroes 3, FileOp.flush,
           FileOp.seekToBegin, FileOp.write BufContent.ones 3, FileOp.flush,
           FileOp.seekToBegin, FileOp.write (BufContent.random 900000000) 3, FileOp.flush,
           FileOp.seekToBegin, FileOp.write (BufContent.random 900000000) 3, FileOp.flush,
           FileOp.seekToBegin, FileOp.write (BufContent.random 900000000) 3, FileOp.flush,
           FileOp.seekToBegin, FileOp.write (BufContent.random 900000000) 3, FileOp.flush,
           FileOp.seekToBegin, FileOp.write (BufContent.random 900000000) 3, FileOp.flush,
           FileOp.close, FileOp.remove] } ∧
    seedOfPass sameSecondFile.clock 2 = seedOfPass sameSecondFile.clock 3 ∧
    (∀ (rand : Nat → Nat → Nat) (pass : Nat), 2 ≤ pass → pass + 1 < PASSES →
      bufBytes rand (prepareBuf sameSecondFile.clock pass) =
        bufBytes rand (prepareBuf sameSecondFile.clock (pass + 1))) := by
  refine ⟨by decide, rfl, ?_⟩
  intro rand pass h2 _
  match pass, h2 with
  | n + 2, _ => rfl

theorem seedOfPass_eq (clock : Nat → Nat) (pass : Nat) :
    seedOfPass clock pass = clock pass % 4294967296 := by
  unfold seedOfPass toULong
  omega

theorem prepareBuf_random (clock : Nat → Nat) (pass : Nat) (h : 2 ≤ pass) :
    prepareBuf clock pass = BufContent.random (seedOfPass clock pass) := by
  match pass, h with
  | n + 2, _ => rfl

/-- The seed of a random pass is the value `time` returned in that pass,
reduced modulo 2^32: two random passes use different seeds exactly when these
clock values differ modulo 2^32, and write bit-identical buffers when they
agree. -/
theorem seeds_differ_iff_clock_differs (clock : Nat → Nat) (pass : Nat) (h2 : 2 ≤ pass) :
    (seedOfPass clock pass ≠ seedOfPass clock (pass + 1) ↔
      clock pass % 4294967296 ≠ clock (pass + 1) % 4294967296) ∧
    (clock pass % 4294967296 = clock (pass + 1) % 4294967296 →
      ∀ rand : Nat → Nat → Nat,
        bufBytes rand (prepareBuf clock pass) = bufBytes rand (prepareBuf clock (pass + 1))) := by
  have e1 := prepareBuf_random clock pass h2
  have e2 := prepareBuf_random clock (pass + 1) (by omega)
  rw [seedOfPass_eq] at e1 e2
  refine ⟨?_, ?_⟩
  · rw [seedOfPass_eq, seedOfPass_eq]
  · intro h rand
    rw [e1, e2, h]

/-! ## The operator's answers -/

theorem not_pseudo_iff (name : String) :
    (name ≠ "." ∧ name ≠ "..") ↔ isPseudo name = false := by
  simp [isPseudo]

theorem scanLoop_pseudo (fuel : Nat) (bDelete : Bool) (thisdir : String) (level : Nat)
    (name : String) (findError : Option Bool) (inner : Scan) (rmdirError : Option String)
    (next : Scan) (g : Globals) (hp : isPseudo name = true) :
    scanLoop fuel bDelete thisdir level (Scan.subdir name findError inner rmdirError next) g =
      scanLoop fuel bDelete thisdir level next g := by
  have hn : ¬ (name ≠ "." ∧ name ≠ "..") := by
    rw [not_pseudo_iff]; simp [hp]
  simp only [scanLoop]
  rw [if_neg hn]

theorem scanLoop_subdir (fuel : Nat) (bDelete : Bool) (thisdir : String) (level : Nat)
    (name : String) (findError : Option Bool) (inner : Scan) (rmdirError : Option String)
    (next : Scan) (g : Globals) (hp : isPseudo name = false) :
    scanLoop fuel bDelete thisdir level (Scan.subdir name findError inner rmdirError next) g =
      (directoryPart (fun d g0 => scanLoop fuel bDelete d (level + 1) inner g0)
        thisdir name (level + 1) findError g).bind fun g1 =>
        scanLoop fuel bDelete thisdir level next
          (if bDelete then
            DeleteDirectory (thisdir ++ "\\" ++ name) rmdirError
              { g1 with nTotalDirectories := g1.nTotalDirectories + 1 }
           else { g1 with nTotalDirectories := g1.nTotalDirectories + 1 }) := by
  have hn : name ≠ "." ∧ name ≠ ".." := (not_pseudo_iff name).2 hp
  simp only [scanLoop]
  rw [if_pos hn]
  cases directoryPart (fun d g0 => scanLoop fuel bDelete d (level + 1) inner g0)
    thisdir name (level + 1) findError g <;> rfl

theorem toULong_natCast (size : Nat) :
    toULong (size : Int) = ((size % 4294967296 : Nat) : Int) := by
  unfold toULong
  omega

theorem scanLoop_file (fuel : Nat) (bDelete : Bool) (thisdir : String) (level : Nat)
    (name : String) (size : Nat) (env : FileEnv) (next : Scan) (g : Globals) :
    scanLoop fuel bDelete thisdir level (Scan.file name size env next) g =
      if bDelete then
        (DeleteFileSecurely fuel (thisdir ++ "\\" ++ name) env
          (g.counted 1 (size % 4294967296) 0 [])).bind
          fun g2 => scanLoop fuel bDelete thisdir level next g2
      else scanLoop fuel bDelete thisdir level next (g.counted 1 (size % 4294967296) 0 []) := by
  have e : ({ g with nTotalSize := g.nTotalSize + toULong (size : Int),
                     nTotalFiles := g.nTotalFiles + 1 } : Globals) =
      g.counted 1 (size % 4294967296) 0 [] := by
    simp [Globals.counted, toULong_natCast]
  simp only [scanLoop, e]
  cases bDelete
  · simp
  · simp only [if_true]
    cases DeleteFileSecurely fuel (thisdir ++ "\\" ++ name) env
      (g.counted 1 (size % 4294967296) 0 []) <;> rfl

theorem directoryPart_below (loop : String → Globals → Option Globals)
    (dirname subdirname : String) (level : Nat) (g : Globals) :
    directoryPart loop dirname subdirname (level + 1) none g =
      loop (thisdirOf dirname subdirname) g := by
  simp only [directoryPart, thisdirOf]
  cases loop (if subdirname.isEmpty then dirname else dirname ++ "\\" ++ subdirname) g <;> simp

theorem directoryPart_failed (loop : String → Globals → Option Globals)
    (dirname subdirname : String) (level : Nat) (enoent : Bool) (g : Globals) :
    directoryPart loop dirname subdirname level (some enoent) g =
      some (if level ≠ 0 ∧ enoent = true then g
        else g.counted 0 0 0 [Out.unableToFind (thisdirOf dirname subdirname)]) := by
  simp only [directoryPart, thisdirOf, Globals.counted]
  split_ifs <;> simp

/-! ## The counting pass -/

theorem counted_counted (g : Globals) (f b d f' b' d' : Nat) (l l' : List Out) :
    (g.counted f b d l).counted f' b' d' l' = g.counted (f + f') (b + b') (d + d') (l ++ l') := by
  simp [Globals.counted, add_assoc]

theorem counted_zero (g : Globals) : g.counted 0 0 0 [] = g := by
  simp [Globals.counted]

theorem counted_directory (g : Globals) (f b d : Nat) (l : List Out) :
    ({ g.counted f b d l with
        nTotalDirectories := (g.counted f b d l).nTotalDirectories + 1 } : Globals) =
      g.counted f b (d + 1) l := by
  simp [Globals.counted, add_assoc]

/-- The counting pass over the entries of a directory only counts and prints. -/
theorem scanLoop_count (fuel : Nat) (scan : Scan) :
    ∀ (thisdir : String) (level : Nat) (g : Globals),
      ∃ lines, scanLoop fuel false thisdir level scan g =
        some (g.counted (numFiles scan) (reportedBytes scan) (numSubdirs scan) lines) := by
  induction scan with
  | noMore =>
    intro thisdir level g
    exact ⟨[], by simp [scanLoop, numFiles, reportedBytes, numSubdirs, counted_zero]⟩
  | file name size env next ih =>
    intro thisdir level g
    obtain ⟨lines, h⟩ := ih thisdir level (g.counted 1 (size % 4294967296) 0 [])
    refine ⟨lines, ?_⟩
    rw [scanLoop_file]
    simp only [Bool.false_eq_true, if_false, h, counted_counted, numFiles, reportedBytes,
      numSubdirs]
    simp
  | subdir name findError inner rmdirError next ihInner ihNext =>
    intro thisdir level g
    by_cases hp : isPseudo name = true
    · obtain ⟨lines, h⟩ := ihNext thisdir level g
      refine ⟨lines, ?_⟩
      rw [scanLoop_pseudo _ _ _ _ _ _ _ _ _ _ hp, h]
      simp [numFiles, reportedBytes, numSubdirs, hp]
    · have hp' : isPseudo name = false := by simpa using hp
      rw [scanLoop_subdir _ _ _ _ _ _ _ _ _ _ hp']
      cases findError with
      | none =>
        obtain ⟨l1, h1⟩ := ihInner (thisdirOf thisdir name) (level + 1) g
        obtain ⟨l2, h2⟩ := ihNext thisdir level
          (g.counted (numFiles inner) (reportedBytes inner) (numSubdirs inner + 1) l1)
        refine ⟨l1 ++ l2, ?_⟩
        rw [directoryPart_below, h1]
        simp only [Option.some_bind, Bool.false_eq_true, if_false, counted_directory, h2,
          counted_counted, numFiles, reportedBytes, numSubdirs, hp']
        congr 2; omega
      | some e =>
        rw [directoryPart_failed]
        by_cases he : e = true
        · obtain ⟨l2, h2⟩ := ihNext thisdir level (g.counted 0 0 1 [])
          refine ⟨l2, ?_⟩
          have e1 : ({ g with nTotalDirectories := g.nTotalDirectories + 1 } : Globals) =
              g.counted 0 0 1 [] := by
            simp [Globals.counted]
          simp only [he, Option.some_bind, Bool.false_eq_true, if_false, ne_eq,
            Nat.add_one_ne_zero, not_false_eq_true, and_self, if_true, e1, h2,
            counted_counted, numFiles, reportedBytes, numSubdirs, hp']
          simp
        · obtain ⟨l2, h2⟩ := ihNext thisdir level
            (g.counted 0 0 1 [Out.unableToFind (thisdirOf thisdir name)])
          refine ⟨[Out.unableToFind (thisdirOf thisdir name)] ++ l2, ?_⟩
          have e0 : ¬ (level + 1 ≠ 0 ∧ e = true) := fun h => he h.2
          simp only [if_neg e0, Option.some_bind, Bool.false_eq_true, if_false,
            counted_directory, h2, counted_counted, numFiles, reportedBytes, numSubdirs, hp']


/-- When every file is smaller than 4 GiB, the sizes `fileinfo.size` holds add
up to the sum of the sizes. -/
theorem reportedBytes_eq_totalBytes (scan : Scan) (h : smallFiles scan = true) :
    reportedBytes scan = totalBytes scan := by
  induction scan with
  | noMore => rfl
  | file name size env next ih =>
    simp only [smallFiles, Bool.and_eq_true, decide_eq_true_eq] at h
    simp only [reportedBytes, totalBytes, ih h.2, Nat.mod_eq_of_lt h.1]
  | subdir name findError inner rmdirError next ihInner ihNext =>
    simp only [smallFiles, Bool.and_eq_true] at h
    simp only [reportedBytes, totalBytes, ihInner h.1, ihNext h.2]

/-! ## The destroying pass -/

theorem rmdirCalls_append (a b : List Effect) :
    rmdirCalls (a ++ b) = rmdirCalls a ++ rmdirCalls b := by
  induction a with
  | nil => rfl
  | cons x xs ih =>
    cases x <;> simp [rmdirCalls, ih]

theorem rmdirCalls_file (path : String) (trace : List FileOp) :
    rmdirCalls (trace.map (Effect.file path)) = [] := by
  induction trace with
  | nil => rfl
  | cons x xs ih => simp [rmdirCalls, ih]

theorem Destroyed.refl (g : Globals) : Destroyed g g 0 0 [] := by
  simp [Destroyed]

theorem Destroyed.trans {g g1 g2 : Globals} {f d f' d' : Nat} {p p' : List String}
    (h : Destroyed g g1 f d p) (h' : Destroyed g1 g2 f' d' p') :
    Destroyed g g2 (f + f') (d + d') (p ++ p') := by
  obtain ⟨a1, a2, a3, a4, a5, a6, a7, a8, a9, a10⟩ := h
  obtain ⟨b1, b2, b3, b4, b5, b6, b7, b8, b9, b10⟩ := h'
  refine ⟨?_, ?_, ?_, ?_, ?_, ?_, ?_, ?_, ?_, ?_⟩
  · rw [b1, a1, List.append_assoc]
  · rw [b2, a2]; push_cast; ring
  · rw [b3, a3]; push_cast; ring
  · omega
  · push_cast; omega
  · omega
  · push_cast; omega
  · push_cast; omega
  · omega
  · rw [b10, a10]

theorem Destroyed.of_eq {g g1 : Globals} {f d f' d' : Nat} {p p' : List String}
    (h : Destroyed g g1 f d p) (hf : f = f') (hd : d = d') (hp : p = p') :
    Destroyed g g1 f' d' p' := by
  subst hf hd hp; exact h

/-- One file of the destroying pass. -/
theorem DeleteFileSecurely_destroyed (fuel : Nat) (strFileName : String) (env : FileEnv)
    (size : Nat) (g g1 : Globals)
    (h : DeleteFileSecurely fuel strFileName env (g.counted 1 size 0 []) = some g1) :
    Destroyed g g1 1 0 [] := by
  unfold DeleteFileSecurely at h
  cases hr : tryBlock env fuel with
  | done trace =>
    rw [hr] at h
    simp only [Option.some.injEq] at h
    subst h
    simp [Destroyed, Globals.counted, rmdirCalls_append, rmdirCalls_file]
  | threw trace =>
    rw [hr] at h
    simp only [Option.some.injEq] at h
    subst h
    simp [Destroyed, Globals.counted, rmdirCalls_append, rmdirCalls_file]
  | outOfFuel trace =>
    rw [hr] at h
    simp at h

/-- One subdirectory of the destroying pass, once its subtree has been left. -/
theorem DeleteDirectory_destroyed (path : String) (rmdirError : Option String) (g : Globals) :
    Destroyed g (DeleteDirectory path rmdirError
      { g with nTotalDirectories := g.nTotalDirectories + 1 }) 0 1 [path] := by
  cases rmdirError <;>
    simp [Destroyed, DeleteDirectory, rmdirCalls_append, rmdirCalls]

theorem Destroyed.printed (g : Globals) (lines : List Out) :
    Destroyed g (g.counted 0 0 0 lines) 0 0 [] := by
  simp [Destroyed, Globals.counted]

/-- The destroying pass over the entries of a directory. -/
theorem scanLoop_destroyed (fuel : Nat) (scan : Scan) :
    ∀ (thisdir : String) (level : Nat) (g g1 : Globals),
      scanLoop fuel true thisdir level scan g = some g1 →
      Destroyed g g1 (numFiles scan) (numSubdirs scan) (subdirPaths thisdir scan) := by
  induction scan with
  | noMore =>
    intro thisdir level g g1 h
    simp only [scanLoop, Option.some.injEq] at h
    subst h
    exact Destroyed.refl g
  | file name size env next ih =>
    intro thisdir level g g1 h
    rw [scanLoop_file] at h
    simp only [if_true] at h
    cases hd : DeleteFileSecurely fuel (thisdir ++ "\\" ++ name) env
        (g.counted 1 (size % 4294967296) 0 []) with
    | none => rw [hd] at h; simp at h
    | some g2 =>
      rw [hd] at h
      simp only [Option.some_bind] at h
      exact ((DeleteFileSecurely_destroyed _ _ _ _ _ _ hd).trans (ih _ _ _ _ h)).of_eq
        (by simp [numFiles]) (by simp [numSubdirs]) (by simp [subdirPaths])
  | subdir name findError inner rmdirError next ihInner ihNext =>
    intro thisdir level g g1 h
    by_cases hp : isPseudo name = true
    · rw [scanLoop_pseudo _ _ _ _ _ _ _ _ _ _ hp] at h
      exact (ihNext _ _ _ _ h).of_eq (by simp [numFiles, hp]) (by simp [numSubdirs, hp])
        (by simp [subdirPaths, hp])
    · have hp' : isPseudo name = false := by simpa using hp
      rw [scanLoop_subdir _ _ _ _ _ _ _ _ _ _ hp'] at h
      cases findError with
      | none =>
        rw [directoryPart_below] at h
        cases hi : scanLoop fuel true (thisdirOf thisdir name) (level + 1) inner g with
        | none => rw [hi] at h; simp at h
        | some g2 =>
          rw [hi] at h
          simp only [Option.some_bind, if_true] at h
          exact (((ihInner _ _ _ _ hi).trans (DeleteDirectory_destroyed _ _ _)).trans
            (ihNext _ _ _ _ h)).of_eq (by simp [numFiles, hp'])
            (by simp [numSubdirs, hp']; omega) (by simp [subdirPaths, hp'])
      | some e =>
        rw [directoryPart_failed] at h
        simp only [Option.some_bind, if_true] at h
        by_cases he : level + 1 ≠ 0 ∧ e = true
        · rw [if_pos he] at h
          exact ((DeleteDirectory_destroyed _ _ _).trans (ihNext _ _ _ _ h)).of_eq
            (by simp [numFiles, hp']) (by simp [numSubdirs, hp']) (by simp [subdirPaths, hp'])
        · rw [if_neg he] at h
          exact (((Destroyed.printed g _).trans (DeleteDirectory_destroyed _ _ _)).trans
            (ihNext _ _ _ _ h)).of_eq
            (by simp [numFiles, hp']) (by simp [numSubdirs, hp']) (by simp [subdirPaths, hp'])


theorem DeleteFileSecurely_returns (fuel : Nat) (strFileName : String) (env : FileEnv)
    (g : Globals) (hlen : env.length ≤ 2147483136) (hfuel : (env.length + 511) / 512 < fuel) :
    ∃ g1, DeleteFileSecurely fuel strFileName env g = some g1 := by
  rcases DeleteFileSecurely_in_range fuel strFileName env g hlen hfuel with
    ⟨_, h⟩ | ⟨_, _, _, _, _, h⟩
  · exact ⟨_, h⟩
  · exact ⟨_, h⟩

/-- Over a tree whose files all have at most `2^31 - 512` bytes, and with fuel
for the longest write loop, the traversal of a directory runs to its end, in
the counting as in the destroying pass. -/
theorem scanLoop_returns (fuel : Nat) (bDelete : Bool) (scan : Scan)
    (h : loopsEnd fuel scan = true) :
    ∀ (thisdir : String) (level : Nat) (g : Globals),
      ∃ g1, scanLoop fuel bDelete thisdir level scan g = some g1 := by
  induction scan with
  | noMore =>
    intro thisdir level g
    exact ⟨g, by simp [scanLoop]⟩
  | file name size env next ih =>
    intro thisdir level g
    simp only [loopsEnd, Bool.and_eq_true, decide_eq_true_eq] at h
    rw [scanLoop_file]
    cases bDelete with
    | false => simpa using ih h.2 thisdir level _
    | true =>
      obtain ⟨g2, h2⟩ := DeleteFileSecurely_returns fuel (thisdir ++ "\\" ++ name) env
        (g.counted 1 (size % 4294967296) 0 []) h.1.1 h.1.2
      simp only [if_true, h2, Option.some_bind]
      exact ih h.2 thisdir level g2
  | subdir name findError inner rmdirError next ihInner ihNext =>
    intro thisdir level g
    simp only [loopsEnd, Bool.and_eq_true] at h
    by_cases hp : isPseudo name = true
    · rw [scanLoop_pseudo _ _ _ _ _ _ _ _ _ _ hp]
      exact ihNext h.2 thisdir level g
    · have hp' : isPseudo name = false := by simpa using hp
      rw [scanLoop_subdir _ _ _ _ _ _ _ _ _ _ hp']
      cases findError with
      | none =>
        obtain ⟨g2, h2⟩ := ihInner h.1 (thisdirOf thisdir name) (level + 1) g
        rw [directoryPart_below, h2]
        simp only [Option.some_bind]
        exact ihNext h.2 thisdir level _
      | some e =>
        rw [directoryPart_failed]
        simp only [Option.some_bind]
        exact ihNext h.2 thisdir level _

/-! ## `ProcessDirectory` on a directory -/

theorem ProcessDirectory_directory (fuel : Nat) (findError : Option Bool) (scan : Scan)
    (dirname subdirname : String) (level : Nat) (bDelete : Bool) (g : Globals) :
    ProcessDirectory fuel none findError scan dirname subdirname level bDelete g =
      directoryPart (fun d g0 => scanLoop fuel bDelete d level scan g0)
        dirname subdirname level findError g := by
  unfold ProcessDirectory
  split_ifs <;> rfl

theorem directoryPart_root (loop : String → Globals → Option Globals)
    (dirname subdirname : String) (g : Globals) :
    directoryPart loop dirname subdirname 0 none g =
      (loop (thisdirOf dirname subdirname) g).map fun g1 =>
        { g1 with nTotalDirectories := g1.nTotalDirectories + 1 } := by
  simp only [directoryPart, thisdirOf]
  cases loop (if subdirname.isEmpty then dirname else dirname ++ "\\" ++ subdirname) g <;> simp

/-- The counting pass never fails, and it only counts and prints. -/
theorem ProcessDirectory_count (fuel : Nat) (status : Option (Nat × FileEnv))
    (findError : Option Bool) (scan : Scan) (dirname subdirname : String) (level : Nat)
    (g : Globals) :
    ∃ files bytes dirs lines,
      ProcessDirectory fuel status findError scan dirname subdirname level false g =
        some (g.counted files bytes dirs lines) := by
  by_cases hs : (if level = 0 then status else none) = none
  · have e : ProcessDirectory fuel status findError scan dirname subdirname level false g =
        directoryPart (fun d g0 => scanLoop fuel false d level scan g0)
          dirname subdirname level findError g := by
      unfold ProcessDirectory
      rw [hs]
    rw [e]
    cases findError with
    | some enoent =>
      rw [directoryPart_failed]
      by_cases h : level ≠ 0 ∧ enoent = true
      · exact ⟨0, 0, 0, [], by rw [if_pos h, counted_zero]⟩
      · exact ⟨0, 0, 0, _, by rw [if_neg h]⟩
    | none =>
      cases level with
      | zero =>
        obtain ⟨lines, h⟩ := scanLoop_count fuel scan (thisdirOf dirname subdirname) 0 g
        rw [directoryPart_root, h]
        exact ⟨numFiles scan, reportedBytes scan, numSubdirs scan + 1, lines,
          by simp only [Option.map_some', counted_directory]⟩
      | succ n =>
        obtain ⟨lines, h⟩ := scanLoop_count fuel scan (thisdirOf dirname subdirname) (n + 1) g
        rw [directoryPart_below, h]
        exact ⟨_, _, _, lines, rfl⟩
  · cases hv : (if level = 0 then status else none) with
    | none => exact absurd hv hs
    | some v =>
      obtain ⟨m_size, env⟩ := v
      refine ⟨1, m_size, 0, [], ?_⟩
      unfold ProcessDirectory
      rw [hv]
      simp [Globals.counted]

/-- The counting pass over a root directory that can be enumerated. -/
theorem ProcessDirectory_count_root (fuel : Nat) (scan : Scan) (dirname : String)
    (g : Globals) :
    ∃ lines, ProcessDirectory fuel none none scan dirname "" 0 false g =
      some (g.counted (numFiles scan) (reportedBytes scan) (numSubdirs scan + 1) lines) := by
  obtain ⟨lines, h⟩ := scanLoop_count fuel scan (thisdirOf dirname "") 0 g
  rw [ProcessDirectory_directory, directoryPart_root, h]
  exact ⟨lines, by simp only [Option.map_some', counted_directory]⟩

theorem thisdirOf_root (dirname : String) : thisdirOf dirname "" = dirname := by
  unfold thisdirOf
  rw [if_pos (by decide)]

/-- The destroying pass over a root directory that can be enumerated: the
entries are processed, then the root itself is counted. -/
theorem ProcessDirectory_destroyed_root (fuel : Nat) (scan : Scan) (dirname : String)
    (g g1 : Globals)
    (h : ProcessDirectory fuel none none scan dirname "" 0 true g = some g1) :
    ∃ g2, Destroyed g g2 (numFiles scan) (numSubdirs scan) (subdirPaths dirname scan) ∧
      g1 = { g2 with nTotalDirectories := g2.nTotalDirectories + 1 } := by
  rw [ProcessDirectory_directory, directoryPart_root, thisdirOf_root] at h
  cases hl : scanLoop fuel true dirname 0 scan g with
  | none => rw [hl] at h; simp at h
  | some g2 =>
    rw [hl] at h
    simp only [Option.map_some', Option.some.injEq] at h
    exact ⟨g2, scanLoop_destroyed fuel scan _ _ _ _ hl, h.symm⟩


/-- Over a tree whose files all have at most `2^31 - 512` bytes, and with fuel
for the longest write loop, `ProcessDirectory` on a directory returns. -/
theorem ProcessDirectory_returns (fuel : Nat) (findError : Option Bool) (scan : Scan)
    (dirname subdirname : String) (level : Nat) (bDelete : Bool) (g : Globals)
    (h : loopsEnd fuel scan = true) :
    ∃ g1, ProcessDirectory fuel none findError scan dirname subdirname level bDelete g =
      some g1 := by
  rw [ProcessDirectory_directory]
  cases findError with
  | some enoent =>
    rw [directoryPart_failed]
    exact ⟨_, rfl⟩
  | none =>
    obtain ⟨g2, h2⟩ := scanLoop_returns fuel bDelete scan h (thisdirOf dirname subdirname) level g
    cases level with
    | zero =>
      rw [directoryPart_root, h2]
      exact ⟨_, rfl⟩
    | succ n =>
      rw [directoryPart_below, h2]
      exact ⟨_, rfl⟩

/-! ## The double confirmation -/

/-- The value `YesNo` returns, the input it leaves and the content it leaves in
`buf` depend on the input and on `buf` only. -/
theorem YesNo_reply_rest (p p1 : Prompt) (input : List (List Char)) :
    ∀ (buf : Option (List Char)) (out out1 : List Out),
      (YesNo p input buf out).reply = (YesNo p1 input buf out1).reply ∧
      (YesNo p input buf out).rest = (YesNo p1 input buf out1).rest ∧
      (YesNo p input buf out).buf = (YesNo p1 input buf out1).buf := by
  induction input with
  | nil =>
    intro buf out out1
    cases buf with
    | none => simp [YesNo]
    | some text =>
      by_cases h : isAnswer (replyOf text) = true
      · simp [YesNo, h]
      · simp [YesNo, h]
  | cons text rest ih =>
    intro buf out out1
    by_cases h : isAnswer (replyOf text) = true
    · simp [YesNo, h]
    · simp only [YesNo, h, Bool.false_eq_true, if_false]
      exact ih _ _ _

/-- What was printed before `YesNo` stays; `YesNo` adds its question, and then
only the guidance line and the question again. -/
theorem YesNo_out_grows (p : Prompt) (input : List (List Char)) :
    ∀ (buf : Option (List Char)) (out : List Out),
      ∃ more, (YesNo p input buf out).out = out ++ Out.prompt p :: more ∧
        ∀ x ∈ more, x = Out.prompt p ∨ x = Out.pleaseReply := by
  induction input with
  | nil =>
    intro buf out
    cases buf with
    | none => exact ⟨[], by simp [YesNo]⟩
    | some text =>
      by_cases h : isAnswer (replyOf text) = true
      · exact ⟨[], by simp [YesNo, h]⟩
      · exact ⟨[Out.pleaseReply], by simp [YesNo, h]⟩
  | cons text rest ih =>
    intro buf out
    by_cases h : isAnswer (replyOf text) = true
    · exact ⟨[], by simp [YesNo, h]⟩
    · obtain ⟨more, hm, hx⟩ := ih (some text) (out ++ [Out.prompt p, Out.pleaseReply])
      refine ⟨Out.pleaseReply :: Out.prompt p :: more, ?_, ?_⟩
      · simp only [YesNo, h, Bool.false_eq_true, if_false, hm]
        simp
      · intro x hxm
        simp only [List.mem_cons] at hxm
        rcases hxm with h1 | h1 | h1
        · exact Or.inr h1
        · exact Or.inl h1
        · exact hx x h1

/-- What `YesNo` prints: its question and the guidance line, after what was
printed before. -/
theorem YesNo_out_mem (p : Prompt) (input : List (List Char)) (buf : Option (List Char))
    (out : List Out) (x : Out) (hx : x ∈ (YesNo p input buf out).out) :
    x ∈ out ∨ x = Out.prompt p ∨ x = Out.pleaseReply := by
  obtain ⟨more, hm, hmore⟩ := YesNo_out_grows p input buf out
  rw [hm] at hx
  simp only [List.mem_append, List.mem_cons] at hx
  rcases hx with h1 | h1 | h1
  · exact Or.inl h1
  · exact Or.inr (Or.inl h1)
  · exact Or.inr (hmore x h1)

theorem QueryUser_reply_eq (files directories : Int) (input : List (List Char))
    (buf : Option (List Char)) (out : List Out) :
    (QueryUser files directories input buf out).reply =
      match (YesNo (Prompt.okToDelete files directories) input buf out).reply with
      | Reply.answered true =>
        (YesNo (Prompt.absolutelySure files directories)
          (YesNo (Prompt.okToDelete files directories) input buf out).rest
          (YesNo (Prompt.okToDelete files directories) input buf out).buf
          (YesNo (Prompt.okToDelete files directories) input buf out).out).reply
      | other => other := by
  unfold QueryUser
  cases h1 : (YesNo (Prompt.okToDelete files directories) input buf out).reply with
  | never => simp only [h1]
  | unknown => simp only [h1]
  | answered b =>
    cases b with
    | false => simp only [h1]
    | true => simp only [h1]

/-- Unless the first `YesNo` returns true, `QueryUser` returns what the first
`YesNo` left: no further input is read and nothing more is printed. -/
theorem QueryUser_first_not_yes (files directories : Int) (input : List (List Char))
    (buf : Option (List Char)) (out : List Out)
    (h : (YesNo (Prompt.okToDelete files directories) input buf out).reply ≠
      Reply.answered true) :
    QueryUser files directories input buf out =
      YesNo (Prompt.okToDelete files directories) input buf out := by
  unfold QueryUser
  cases h1 : (YesNo (Prompt.okToDelete files directories) input buf out).reply with
  | never => simp only [h1]
  | unknown => simp only [h1]
  | answered b =>
    cases b with
    | false => simp only [h1]
    | true => exact absurd h1 h

/-- When the first `YesNo` returns true, `QueryUser` is the second `YesNo`,
called on what the first one left. -/
theorem QueryUser_first_yes (files directories : Int) (input : List (List Char))
    (buf : Option (List Char)) (out : List Out)
    (h : (YesNo (Prompt.okToDelete files directories) input buf out).reply =
      Reply.answered true) :
    QueryUser files directories input buf out =
      YesNo (Prompt.absolutelySure files directories)
        (YesNo (Prompt.okToDelete files directories) input buf out).rest
        (YesNo (Prompt.okToDelete files directories) input buf out).buf
        (YesNo (Prompt.okToDelete files directories) input buf out).out := by
  unfold QueryUser
  simp only [h]

/-- The value `QueryUser` returns depends on the input and on `buf` only. -/
theorem QueryUser_reply_indep (f d f1 d1 : Int) (input : List (List Char))
    (buf : Option (List Char)) (out out1 : List Out) :
    (QueryUser f d input buf out).reply = (QueryUser f1 d1 input buf out1).reply := by
  rw [QueryUser_reply_eq, QueryUser_reply_eq]
  have h := YesNo_reply_rest (Prompt.okToDelete f d) (Prompt.okToDelete f1 d1) input buf out out1
  rw [h.1, h.2.1, h.2.2]
  cases (YesNo (Prompt.okToDelete f1 d1) input buf out1).reply with
  | never => rfl
  | unknown => rfl
  | answered b =>
    cases b with
    | false => rfl
    | true =>
      exact (YesNo_reply_rest _ _ _ _ _ _).1

/-- Unless `QueryUser` returns true, `main` issues no file-system call. -/
theorem main_no_effect_unless_confirmed (root : RootEnv) (starting_point : String)
    (stdin : List String) (fuel : Nat) (files directories : Int) (out : List Out)
    (h : (QueryUser files directories (deliveries (stdin.flatMap String.data)) (some [])
      out).reply ≠ Reply.answered true) :
    (main root starting_point stdin fuel).g.effects = [] := by
  obtain ⟨f, b, d, lines, hc⟩ := ProcessDirectory_count fuel root.status root.findError
    root.scan starting_point "" 0 Globals.initial
  unfold main
  rw [hc]
  simp only
  split_ifs with h0
  · rfl
  · have hq := QueryUser_reply_indep files directories
      (Globals.initial.counted f b d lines).nTotalFiles
      (Globals.initial.counted f b d lines).nTotalDirectories
      (deliveries (stdin.flatMap String.data)) (some []) out
      (Globals.initial.counted f b d lines).out
    rw [hq] at h
    split
    · next h1 => exact absurd h1 h
    · rfl
    · rfl
    · rfl

/-! ## The end of `main` -/

/-- The final listing changes nothing but the output, to which it adds list
entries, its question and the guidance line. -/
theorem showLoop_g (fuel : Nat) :
    ∀ (input : List (List Char)) (buf : Option (List Char)) (g : Globals),
      ∃ more, (showLoop fuel input buf g).g = { g with out := g.out ++ more } ∧
        ∀ x ∈ more, x = Out.prompt Prompt.showAgain ∨ x = Out.pleaseReply ∨
          ∃ entry, x = Out.listed entry := by
  induction fuel with
  | zero => intro input buf g; exact ⟨[], by simp [showLoop]⟩
  | succ n ih =>
    intro input buf g
    obtain ⟨m1, hm1, hx1⟩ := YesNo_out_grows Prompt.showAgain input buf
      (g.out ++ g.strCannotDeleteList.map Out.listed)
    have hmem : ∀ x ∈ g.strCannotDeleteList.map Out.listed ++ Out.prompt Prompt.showAgain :: m1,
        x = Out.prompt Prompt.showAgain ∨ x = Out.pleaseReply ∨ ∃ entry, x = Out.listed entry := by
      intro x hx
      simp only [List.mem_append, List.mem_cons, List.mem_map] at hx
      rcases hx with ⟨e, _, he⟩ | h2 | h2
      · exact Or.inr (Or.inr ⟨e, he.symm⟩)
      · exact Or.inl h2
      · rcases hx1 x h2 with h3 | h3
        · exact Or.inl h3
        · exact Or.inr (Or.inl h3)
    simp only [showLoop]
    cases hr : (YesNo Prompt.showAgain input buf
        (g.out ++ g.strCannotDeleteList.map Out.listed)).reply with
    | never =>
      refine ⟨_, ?_, hmem⟩
      simp only [hm1, List.append_assoc]
    | unknown =>
      refine ⟨_, ?_, hmem⟩
      simp only [hm1, List.append_assoc]
    | answered b =>
      cases b with
      | false =>
        refine ⟨_, ?_, hmem⟩
        simp only [hm1, List.append_assoc]
      | true =>
        simp only
        obtain ⟨m2, hm2, hx2⟩ := ih (YesNo Prompt.showAgain input buf
          (g.out ++ g.strCannotDeleteList.map Out.listed)).rest
          (YesNo Prompt.showAgain input buf
            (g.out ++ g.strCannotDeleteList.map Out.listed)).buf
          { g with out := (YesNo Prompt.showAgain input buf
            (g.out ++ g.strCannotDeleteList.map Out.listed)).out }
        refine ⟨(g.strCannotDeleteList.map Out.listed ++ Out.prompt Prompt.showAgain :: m1)
          ++ m2, ?_, ?_⟩
        · rw [hm2]
          simp only [hm1, List.append_assoc]
        · intro x hx
          rcases List.mem_append.1 hx with h | h
          · exact hmem x h
          · exact hx2 x h

/-- The run of `main` when the counting pass found something and `QueryUser`
returned true. -/
theorem main_confirmed (root : RootEnv) (starting_point : String) (stdin : List String)
    (fuel : Nat) (g1 : Globals)
    (hc : ProcessDirectory fuel root.status root.findError root.scan starting_point "" 0
      false Globals.initial = some g1)
    (hfound : g1.nTotalFiles + g1.nTotalDirectories ≠ 0)
    (hq : (QueryUser g1.nTotalFiles g1.nTotalDirectories (deliveries (stdin.flatMap String.data))
        (some []) g1.out).reply = Reply.answered true) :
    main root starting_point stdin fuel =
      match ProcessDirectory fuel root.status root.findError root.scan starting_point "" 0
          true (startDestroy g1 (QueryUser g1.nTotalFiles g1.nTotalDirectories (deliveries (stdin.flatMap String.data))
        (some []) g1.out).out) with
      | none =>
        { g := startDestroy g1 (QueryUser g1.nTotalFiles g1.nTotalDirectories (deliveries (stdin.flatMap String.data))
        (some []) g1.out).out,
          exit := Exit.outOfFuel }
      | some g4 =>
        if (afterRoot starting_point root.rmdirError g4).nErrors ≠ 0 then
          let a := YesNo Prompt.showList
            (QueryUser g1.nTotalFiles g1.nTotalDirectories (deliveries (stdin.flatMap String.data))
        (some []) g1.out).rest none
            (afterRoot starting_point root.rmdirError g4).out
          match a.reply with
          | Reply.answered true =>
            showLoop fuel a.rest a.buf { afterRoot starting_point root.rmdirError g4 with out := a.out }
          | Reply.answered false =>
            { g := { afterRoot starting_point root.rmdirError g4 with out := a.out },
              exit := Exit.returned }
          | Reply.never =>
            { g := { afterRoot starting_point root.rmdirError g4 with out := a.out },
              exit := Exit.endOfInput }
          | Reply.unknown =>
            { g := { afterRoot starting_point root.rmdirError g4 with out := a.out },
              exit := Exit.undetermined }
        else { g := afterRoot starting_point root.rmdirError g4, exit := Exit.returned } := by
  unfold main
  rw [hc]
  simp only
  rw [if_neg hfound]
  simp only [hq]
  rfl

/-- After the destroying pass, `main` changes nothing but the output, to which
it adds only what the final questions and listing print. -/
theorem main_confirmed_state (root : RootEnv) (starting_point : String) (stdin : List String)
    (fuel : Nat) (g1 g4 : Globals)
    (hc : ProcessDirectory fuel root.status root.findError root.scan starting_point "" 0
      false Globals.initial = some g1)
    (hfound : g1.nTotalFiles + g1.nTotalDirectories ≠ 0)
    (hq : (QueryUser g1.nTotalFiles g1.nTotalDirectories (deliveries (stdin.flatMap String.data))
        (some []) g1.out).reply = Reply.answered true)
    (hd : ProcessDirectory fuel root.status root.findError root.scan starting_point "" 0
      true (startDestroy g1 (QueryUser g1.nTotalFiles g1.nTotalDirectories (deliveries (stdin.flatMap String.data))
        (some []) g1.out).out)
        = some g4) :
    ∃ more, (main root starting_point stdin fuel).g =
        { afterRoot starting_point root.rmdirError g4 with
          out := (afterRoot starting_point root.rmdirError g4).out ++ more } ∧
      (∀ x ∈ more, x = Out.prompt Prompt.showList ∨ x = Out.prompt Prompt.showAgain ∨
        x = Out.pleaseReply ∨ ∃ entry, x = Out.listed entry) ∧
      ((afterRoot starting_point root.rmdirError g4).nErrors = 0 →
        (main root starting_point stdin fuel).exit = Exit.returned ∧ more = []) := by
  rw [main_confirmed root starting_point stdin fuel g1 hc hfound hq, hd]
  simp only
  by_cases he : (afterRoot starting_point root.rmdirError g4).nErrors = 0
  · rw [if_neg (by simpa using he)]
    exact ⟨[], by simp, by simp, fun _ => ⟨rfl, rfl⟩⟩
  · rw [if_pos he]
    obtain ⟨m1, hm1, hx1⟩ := YesNo_out_grows Prompt.showList
      (QueryUser g1.nTotalFiles g1.nTotalDirectories (deliveries (stdin.flatMap String.data))
        (some []) g1.out).rest none
      (afterRoot starting_point root.rmdirError g4).out
    have hmem : ∀ x ∈ Out.prompt Prompt.showList :: m1,
        x = Out.prompt Prompt.showList ∨ x = Out.prompt Prompt.showAgain ∨
          x = Out.pleaseReply ∨ ∃ entry, x = Out.listed entry := by
      intro x hx
      rcases List.mem_cons.1 hx with h | h
      · exact Or.inl h
      · rcases hx1 x h with h3 | h3
        · exact Or.inl h3
        · exact Or.inr (Or.inr (Or.inl h3))
    cases hr : (YesNo Prompt.showList
        (QueryUser g1.nTotalFiles g1.nTotalDirectories (deliveries (stdin.flatMap String.data))
        (some []) g1.out).rest none
        (afterRoot starting_point root.rmdirError g4).out).reply with
    | never =>
      exact ⟨_, by simp only [hm1], hmem, fun h => absurd h he⟩
    | unknown =>
      exact ⟨_, by simp only [hm1], hmem, fun h => absurd h he⟩
    | answered b =>
      cases b with
      | false =>
        exact ⟨_, by simp only [hm1], hmem, fun h => absurd h he⟩
      | true =>
        simp only
        obtain ⟨m2, hm2, hx2⟩ := showLoop_g fuel (YesNo Prompt.showList
          (QueryUser g1.nTotalFiles g1.nTotalDirectories (deliveries (stdin.flatMap String.data))
        (some []) g1.out).rest none
          (afterRoot starting_point root.rmdirError g4).out).rest
          (YesNo Prompt.showList
          (QueryUser g1.nTotalFiles g1.nTotalDirectories (deliveries (stdin.flatMap String.data))
        (some []) g1.out).rest none
          (afterRoot starting_point root.rmdirError g4).out).buf
          { afterRoot starting_point root.rmdirError g4 with
            out := (YesNo Prompt.showList
              (QueryUser g1.nTotalFiles g1.nTotalDirectories (deliveries (stdin.flatMap String.data))
        (some []) g1.out).rest none
              (afterRoot starting_point root.rmdirError g4).out).out }
        refine ⟨(Out.prompt Prompt.showList :: m1) ++ m2, ?_, ?_, fun h => absurd h he⟩
        · rw [hm2]
          simp only [hm1, List.append_assoc]
        · intro x hx
          rcases List.mem_append.1 hx with h | h
          · exact hmem x h
          · exact Or.inr (hx2 x h)

/-! ## Counting and deleting below a root directory -/

/-- C5 (as stated, refuted): for a root holding files of 3 and 0 bytes and one
empty subdirectory, the counting pass reports 2 directories (the subdirectory
and the root), not 1, while the tree has exactly one subdirectory below the
root. -/
theorem C5_count_pass_counts_the_root :
    (ProcessDirectory 0 scenarioB.status scenarioB.findError scenarioB.scan "C:\\t" "" 0 false
        Globals.initial).map (fun g => (g.nTotalFiles, g.nTotalDirectories, g.nTotalSize)) =
      some (2, 2, 3) ∧
    numSubdirs scenarioB.scan = 1 := by
  decide

/-- C5 (amended): for every root directory that can be enumerated, the counting
pass returns and reports fileCount = the number of files in the tree,
directoryCount = the number of subdirectories below the root plus one (the root
itself is counted) and, when every file is smaller than 4 GiB, totalBytes = the
sum of their sizes. When moreover no file is longer than `2^31 - 512` bytes and
the fuel covers the longest write loop, a confirmed run that records no failure
returns and reports deletedDirectories = the same number (the subdirectories
plus one for the root) and deletedFiles = the number of files. -/
theorem C5_counts_with_root (root : RootEnv) (starting_point : String) (stdin : List String)
    (fuel : Nat) (files directories : Int) (out : List Out)
    (hstatus : root.status = none) (hfind : root.findError = none) :
    (∃ g, ProcessDirectory fuel root.status root.findError root.scan starting_point "" 0 false
        Globals.initial = some g ∧
      g.nTotalFiles = numFiles root.scan ∧
      (smallFiles root.scan = true → g.nTotalSize = totalBytes root.scan) ∧
      g.nTotalDirectories = numSubdirs root.scan + 1) ∧
    (loopsEnd fuel root.scan = true →
      (QueryUser files directories (deliveries (stdin.flatMap String.data)) (some [])
        out).reply = Reply.answered true →
      (main root starting_point stdin fuel).g.nErrors = 0 →
      (main root starting_point stdin fuel).exit = Exit.returned ∧
        (main root starting_point stdin fuel).g.nTotalDirectoriesDeleted =
          numSubdirs root.scan + 1 ∧
        (main root starting_point stdin fuel).g.nTotalFilesDeleted = numFiles root.scan ∧
        (main root starting_point stdin fuel).g.nTotalDirectories = numSubdirs root.scan + 1 ∧
        (main root starting_point stdin fuel).g.nTotalFiles = numFiles root.scan) := by
  obtain ⟨lines, hc⟩ := ProcessDirectory_count_root fuel root.scan starting_point Globals.initial
  rw [← hstatus, ← hfind] at hc
  constructor
  · refine ⟨_, hc, by simp [Globals.counted, Globals.initial], ?_,
      by simp [Globals.counted, Globals.initial]⟩
    intro hsmall
    rw [← reportedBytes_eq_totalBytes root.scan hsmall]
    simp [Globals.counted, Globals.initial]
  · intro hloops hq herr
    have hfound : (Globals.initial.counted (numFiles root.scan) (reportedBytes root.scan)
        (numSubdirs root.scan + 1) lines).nTotalFiles +
        (Globals.initial.counted (numFiles root.scan) (reportedBytes root.scan)
        (numSubdirs root.scan + 1) lines).nTotalDirectories ≠ 0 := by
      simp only [Globals.counted, Globals.initial]
      push_cast
      omega
    have hq1 := hq
    rw [QueryUser_reply_indep files directories _ _ _ _ out _] at hq1
    obtain ⟨g4, hd0⟩ := ProcessDirectory_returns fuel none root.scan starting_point "" 0 true
      (startDestroy _ (QueryUser _ _ (deliveries (stdin.flatMap String.data)) (some [])
        _).out) hloops
    have hd := hd0
    rw [← hstatus, ← hfind] at hd
    obtain ⟨more, hm, _, hret⟩ :=
      main_confirmed_state root starting_point stdin fuel _ g4 hc hfound hq1 hd
    rw [hm] at herr ⊢
    simp only at herr ⊢
    refine ⟨(hret herr).1, ?_⟩
    obtain ⟨g2, hdes, hg4⟩ := ProcessDirectory_destroyed_root fuel root.scan starting_point
      _ g4 hd0
    obtain ⟨_, a2, a3, a4, a5, a6, a7, a8, _, _⟩ := hdes
    simp only [startDestroy, Globals.counted, Globals.initial] at a2 a3 a4 a5 a6 a7 a8
    have hn4 : g4.nErrors = g2.nErrors := by rw [hg4]
    have hd4 : g4.nTotalDirectoriesDeleted = g2.nTotalDirectoriesDeleted := by rw [hg4]
    have hf4 : g4.nTotalFilesDeleted = g2.nTotalFilesDeleted := by rw [hg4]
    have ht4 : g4.nTotalDirectories = g2.nTotalDirectories + 1 := by rw [hg4]
    have hs4 : g4.nTotalFiles = g2.nTotalFiles := by rw [hg4]
    unfold afterRoot at herr ⊢
    by_cases h0 : g4.nErrors = 0
    · rw [if_pos h0] at herr ⊢
      cases hr : root.rmdirError with
      | some text =>
        rw [hr] at herr
        simp only [DeleteDirectory] at herr
        omega
      | none =>
        simp only [DeleteDirectory]
        refine ⟨?_, ?_, ?_, ?_⟩ <;> omega
    · rw [if_neg h0] at herr
      exact absurd herr h0

/-- C5 (amended), on the root of scenario B (files of 3 and 0 bytes, one empty
subdirectory) with both questions answered yes: the counting pass reports
2 files, 3 bytes, 2 directories, and the run returns and deletes 2 directories
and 2 files. -/
theorem C5_counts_with_root_witness :
    (scenarioB.status = none ∧ scenarioB.findError = none ∧
      smallFiles scenarioB.scan = true ∧ loopsEnd 2 scenarioB.scan = true) ∧
    (∃ g, ProcessDirectory 2 scenarioB.status scenarioB.findError scenarioB.scan "C:\\t" "" 0
        false Globals.initial = some g ∧
      g.nTotalFiles = 2 ∧ g.nTotalSize = 3 ∧ g.nTotalDirectories = 2) ∧
    (main scenarioB "C:\\t" ["yes\n", "YES\n"] 2).exit = Exit.returned ∧
    (main scenarioB "C:\\t" ["yes\n", "YES\n"] 2).g.nTotalDirectoriesDeleted = 2 ∧
    (main scenarioB "C:\\t" ["yes\n", "YES\n"] 2).g.nTotalFilesDeleted = 2 := by
  have h := C5_counts_with_root scenarioB "C:\\t" ["yes\n", "YES\n"] 2 0 0 [] rfl rfl
  have h2 := h.2 (by decide) (by decide) (by decide)
  obtain ⟨g, hg, h1, h3, h4⟩ := h.1
  exact ⟨⟨rfl, rfl, by decide, by decide⟩, ⟨g, hg, h1, h3 (by decide), h4⟩, h2.1, h2.2.1,
    h2.2.2.1⟩

/-! ## Subdirectories with failed children -/

/-- C3: the root is a single file of 10 bytes, nothing fails on the file and
both questions are answered yes. At the end of the run every file and
directory found has been deleted (1 of 1 files, 0 of 0 directories), and yet a
failure is recorded: `main` calls `DeleteDirectory` on the path of the file it
has just removed, `rmdir` fails, `nErrors` is 1 and `strCannotDeleteList` has
one entry. -/
theorem C3_single_file_root_records_a_failure :
    (main singleFileRoot "C:\\f.txt" ["yes\n", "yes\n", "no\n"] 2).exit = Exit.returned ∧
    (main singleFileRoot "C:\\f.txt" ["yes\n", "yes\n", "no\n"] 2).g.nTotalFiles = 1 ∧
    (main singleFileRoot "C:\\f.txt" ["yes\n", "yes\n", "no\n"] 2).g.nTotalFilesDeleted = 1 ∧
    (main singleFileRoot "C:\\f.txt" ["yes\n", "yes\n", "no\n"] 2).g.nTotalDirectories = 0 ∧
    (main singleFileRoot "C:\\f.txt" ["yes\n", "yes\n", "no\n"] 2).g.nTotalDirectoriesDeleted = 0 ∧
    (main singleFileRoot "C:\\f.txt" ["yes\n", "yes\n", "no\n"] 2).g.nErrors = 1 ∧
    (main singleFileRoot "C:\\f.txt" ["yes\n", "yes\n", "no\n"] 2).g.strCannotDeleteList =
      ["C:\\f.txt : No such file or directory"] ∧
    (main singleFileRoot "C:\\f.txt" ["yes\n", "yes\n", "no\n"] 2).g.effects.getLast? =
      some (Effect.rmdir "C:\\f.txt") := by
  decide

/-! ## An empty root directory -/

/-- What `QueryUser` prints: its first question, then only questions and the
guidance line. -/
theorem QueryUser_out_grows (files directories : Int) (input : List (List Char))
    (buf : Option (List Char)) (out : List Out) :
    ∃ more, (QueryUser files directories input buf out).out =
        out ++ Out.prompt (Prompt.okToDelete files directories) :: more ∧
      ∀ x ∈ more, x = Out.prompt (Prompt.okToDelete files directories) ∨
        x = Out.prompt (Prompt.absolutelySure files directories) ∨ x = Out.pleaseReply := by
  obtain ⟨m1, hm1, hx1⟩ := YesNo_out_grows (Prompt.okToDelete files directories) input buf out
  have hmem1 : ∀ x ∈ m1, x = Out.prompt (Prompt.okToDelete files directories) ∨
      x = Out.prompt (Prompt.absolutelySure files directories) ∨ x = Out.pleaseReply := by
    intro x hx
    rcases hx1 x hx with h | h
    · exact Or.inl h
    · exact Or.inr (Or.inr h)
  by_cases h1 : (YesNo (Prompt.okToDelete files directories) input buf out).reply =
      Reply.answered true
  · rw [QueryUser_first_yes files directories input buf out h1]
    obtain ⟨m2, hm2, hx2⟩ := YesNo_out_grows (Prompt.absolutelySure files directories)
      (YesNo (Prompt.okToDelete files directories) input buf out).rest
      (YesNo (Prompt.okToDelete files directories) input buf out).buf
      (YesNo (Prompt.okToDelete files directories) input buf out).out
    refine ⟨m1 ++ Out.prompt (Prompt.absolutelySure files directories) :: m2, ?_, ?_⟩
    · rw [hm2, hm1]; simp
    · intro x hx
      simp only [List.mem_append, List.mem_cons] at hx
      rcases hx with h | h | h
      · exact hmem1 x h
      · exact Or.inr (Or.inl h)
      · exact Or.inr (hx2 x h)
  · rw [QueryUser_first_not_yes files directories input buf out h1]
    exact ⟨m1, hm1, hmem1⟩

/-- The output of `main` when the counting pass found something and
`QueryUser` did not return true. -/
theorem main_not_confirmed (root : RootEnv) (starting_point : String) (stdin : List String)
    (fuel : Nat) (g1 : Globals)
    (hc : ProcessDirectory fuel root.status root.findError root.scan starting_point "" 0
      false Globals.initial = some g1)
    (hfound : g1.nTotalFiles + g1.nTotalDirectories ≠ 0)
    (hq : (QueryUser g1.nTotalFiles g1.nTotalDirectories
      (deliveries (stdin.flatMap String.data)) (some []) g1.out).reply ≠ Reply.answered true) :
    ∃ more, (main root starting_point stdin fuel).g.out =
        (QueryUser g1.nTotalFiles g1.nTotalDirectories
          (deliveries (stdin.flatMap String.data)) (some []) g1.out).out ++ more ∧
      ∀ x ∈ more, x = Out.deletesNotDone := by
  unfold main
  rw [hc]
  simp only
  rw [if_neg hfound]
  split
  · next h1 => exact absurd h1 hq
  · exact ⟨[Out.deletesNotDone], rfl, by simp⟩
  · exact ⟨[], by simp, by simp⟩
  · exact ⟨[], by simp, by simp⟩

theorem scanLoop_onlyPseudo (fuel : Nat) (bDelete : Bool) (thisdir : String) (level : Nat)
    (scan : Scan) (g : Globals) (h : onlyPseudo scan = true) :
    scanLoop fuel bDelete thisdir level scan g = some g := by
  induction scan with
  | noMore => simp [scanLoop]
  | file name size env next _ => simp [onlyPseudo] at h
  | subdir name findError inner rmdirError next _ ihNext =>
    simp only [onlyPseudo, Bool.and_eq_true] at h
    rw [scanLoop_pseudo _ _ _ _ _ _ _ _ _ _ h.1]
    exact ihNext h.2

theorem ProcessDirectory_onlyPseudo (fuel : Nat) (bDelete : Bool) (dirname : String)
    (scan : Scan) (g : Globals) (h : onlyPseudo scan = true) :
    ProcessDirectory fuel none none scan dirname "" 0 bDelete g =
      some { g with nTotalDirectories := g.nTotalDirectories + 1 } := by
  rw [ProcessDirectory_directory, directoryPart_root, scanLoop_onlyPseudo _ _ _ _ _ _ h]
  rfl

/-- C4 (as stated, refuted): for a root directory without files and
subdirectories the counting pass leaves nTotalFiles + nTotalDirectories = 1
(the root itself is counted), no error is raised and the operator is asked the
first question of `QueryUser` for 0 files and 1 directory. -/
theorem C4_empty_root_is_counted_and_asked :
    (ProcessDirectory 0 emptyDirRoot.status emptyDirRoot.findError emptyDirRoot.scan
        "C:\\empty" "" 0 false Globals.initial).map
        (fun g => g.nTotalFiles + g.nTotalDirectories) = some 1 ∧
    (main emptyDirRoot "C:\\empty" ["no\n"] 0).g.out =
      [Out.prompt (Prompt.okToDelete 0 1), Out.deletesNotDone] ∧
    (main emptyDirRoot "C:\\empty" ["no\n"] 0).g.nTotalFilesFound = 1 := by
  decide

/-- C4 (amended): when the root is a directory whose enumeration yields only
the pseudo entries, the counting pass leaves nTotalFiles + nTotalDirectories = 1
(the root itself is counted), `main` raises no error, and `QueryUser` is called
for 0 files and 1 directory: its first question is the first line printed. The
error "No files or directories found to delete" is raised, without any
question, when the root cannot be enumerated. -/
theorem C4_empty_directory_is_confirmed (root : RootEnv) (starting_point : String)
    (stdin : List String) (fuel : Nat)
    (hstatus : root.status = none) (hfind : root.findError = none)
    (hempty : onlyPseudo root.scan = true) :
    (∃ g, ProcessDirectory fuel root.status root.findError root.scan starting_point "" 0
        false Globals.initial = some g ∧ g.nTotalFiles + g.nTotalDirectories = 1) ∧
    (∃ more, (main root starting_point stdin fuel).g.out =
      Out.prompt (Prompt.okToDelete 0 1) :: more) ∧
    (∀ message, Out.error message ∉ (main root starting_point stdin fuel).g.out) ∧
    (∀ (enoent : Bool) (scan : Scan) (rmdirError : Option String),
      main { status := none, findError := some enoent, scan := scan, rmdirError := rmdirError }
          starting_point stdin fuel =
        { g := { Globals.initial with
            out := [Out.unableToFind starting_point,
                    Out.error "No files or directories found to delete"] },
          exit := Exit.returned }) := by
  have hc : ProcessDirectory fuel root.status root.findError root.scan starting_point "" 0
      false Globals.initial =
      some { Globals.initial with nTotalDirectories := Globals.initial.nTotalDirectories + 1 } := by
    rw [hstatus, hfind]
    exact ProcessDirectory_onlyPseudo fuel false starting_point root.scan _ hempty
  have hfound : ({ Globals.initial with
      nTotalDirectories := Globals.initial.nTotalDirectories + 1 } : Globals).nTotalFiles +
      ({ Globals.initial with
      nTotalDirectories := Globals.initial.nTotalDirectories + 1 } : Globals).nTotalDirectories
        ≠ 0 := by
    decide
  obtain ⟨mq, hmq, hxq⟩ := QueryUser_out_grows 0 1 (deliveries (stdin.flatMap String.data)) (some []) []
  have hout : ∃ more, (main root starting_point stdin fuel).g.out =
      (QueryUser 0 1 (deliveries (stdin.flatMap String.data)) (some []) []).out ++ more ∧
      ∀ x ∈ more, x = Out.deletesNotDone ∨ x = Out.prompt Prompt.showList ∨
        x = Out.prompt Prompt.showAgain ∨ x = Out.pleaseReply ∨ ∃ entry, x = Out.listed entry := by
    by_cases hq : (QueryUser 0 1 (deliveries (stdin.flatMap String.data)) (some []) []).reply = Reply.answered true
    · have hd := ProcessDirectory_onlyPseudo fuel true starting_point root.scan
        (startDestroy { Globals.initial with
          nTotalDirectories := Globals.initial.nTotalDirectories + 1 }
          (QueryUser 0 1 (deliveries (stdin.flatMap String.data)) (some []) []).out) hempty
      rw [← hstatus, ← hfind] at hd
      obtain ⟨more, hm, hx, _⟩ :=
        main_confirmed_state root starting_point stdin fuel _ _ hc hfound hq hd
      refine ⟨more, ?_, fun x h => Or.inr (hx x h)⟩
      rw [hm]
      simp only [afterRoot, startDestroy, Globals.initial, if_true]
      cases root.rmdirError <;> rfl
    · obtain ⟨more, hm, hx⟩ := main_not_confirmed root starting_point stdin fuel _ hc hfound hq
      exact ⟨more, hm, fun x h => Or.inl (hx x h)⟩
  obtain ⟨more, hm, hx⟩ := hout
  refine ⟨⟨_, hc, by decide⟩, ?_, ?_, ?_⟩
  · exact ⟨mq ++ more, by rw [hm, hmq]; simp⟩
  · intro message hmem
    rw [hm, hmq] at hmem
    simp only [List.nil_append, List.mem_append, List.mem_cons] at hmem
    rcases hmem with (h | h) | h
    · cases h
    · rcases hxq _ h with h1 | h1 | h1 <;> cases h1
    · rcases hx _ h with h1 | h1 | h1 | h1 | ⟨e, h1⟩ <;> cases h1
  · intro enoent scan rmdirError
    unfold main
    simp only [ProcessDirectory_directory, directoryPart_failed, thisdirOf_root]
    rfl

/-- C4 (amended), on the empty root directory with a first answer `no`. -/
theorem C4_empty_directory_is_confirmed_witness :
    (emptyDirRoot.status = none ∧ emptyDirRoot.findError = none ∧
      onlyPseudo emptyDirRoot.scan = true) ∧
    ∃ more, (main emptyDirRoot "C:\\empty" ["no\n"] 1).g.out =
      Out.prompt (Prompt.okToDelete 0 1) :: more :=
  ⟨⟨rfl, rfl, rfl⟩,
   (C4_empty_directory_is_confirmed emptyDirRoot "C:\\empty" ["no\n"] 1 rfl rfl rfl).2.1⟩

/-! ## Destroying only after the double confirmation -/

/-- The value of `QueryUser` is true exactly when both of its `YesNo` calls
return true, the second one called on what the first one left. -/
theorem QueryUser_true_iff (files directories : Int) (input : List (List Char))
    (buf : Option (List Char)) (out : List Out) :
    (QueryUser files directories input buf out).reply = Reply.answered true ↔
      (YesNo (Prompt.okToDelete files directories) input buf out).reply = Reply.answered true ∧
      (YesNo (Prompt.absolutelySure files directories)
        (YesNo (Prompt.okToDelete files directories) input buf out).rest
        (YesNo (Prompt.okToDelete files directories) input buf out).buf
        (YesNo (Prompt.okToDelete files directories) input buf out).out).reply =
          Reply.answered true := by
  by_cases h1 : (YesNo (Prompt.okToDelete files directories) input buf out).reply =
      Reply.answered true
  · rw [QueryUser_first_yes files directories input buf out h1]
    simp [h1]
  · rw [QueryUser_first_not_yes files directories input buf out h1]
    simp [h1]

/-- When the first question is not answered yes, the second question is not
printed. -/
theorem QueryUser_second_not_asked (files directories : Int) (input : List (List Char))
    (buf : Option (List Char)) (out : List Out)
    (h : (YesNo (Prompt.okToDelete files directories) input buf out).reply ≠
      Reply.answered true)
    (hn : Out.prompt (Prompt.absolutelySure files directories) ∉ out) :
    Out.prompt (Prompt.absolutelySure files directories) ∉
      (QueryUser files directories input buf out).out := by
  rw [QueryUser_first_not_yes files directories input buf out h]
  intro hmem
  rcases YesNo_out_mem _ _ _ _ _ hmem with h1 | h1 | h1
  · exact hn h1
  · cases h1
  · cases h1

/-- C6: the root is the directory of scenario B (two files and an empty
subdirectory) and the whole input is the line `yes`, followed by the end of
the input. The first `YesNo` returns true. The second prints its question,
`fgets` delivers nothing and its return value is not tested, the `yes` that is
still in `buf` is read again, and `QueryUser` returns true although its second
question was never answered. `main` then runs the destroying pass: both files
are overwritten and removed and `rmdir` is called on the subdirectory and on
the root. When the line `yes` is followed by the line `no`, the same run
touches nothing. -/
theorem C6_one_yes_then_end_of_input_destroys :
    deliveries (["yes\n"].flatMap String.data) = [['y', 'e', 's', '\n']] ∧
    QueryUser 2 2 (deliveries (["yes\n"].flatMap String.data)) (some []) [] =
      { reply := Reply.answered true, rest := [], buf := some ['y', 'e', 's', '\n'],
        out := [Out.prompt (Prompt.okToDelete 2 2), Out.prompt (Prompt.absolutelySure 2 2)] } ∧
    (main scenarioB "C:\\t" ["yes\n"] 2).exit = Exit.returned ∧
    (main scenarioB "C:\\t" ["yes\n"] 2).g.nTotalFilesDeleted = 2 ∧
    (main scenarioB "C:\\t" ["yes\n"] 2).g.nTotalDirectoriesDeleted = 2 ∧
    Effect.file "C:\\t\\a.txt" (FileOp.write BufContent.zeroes 3) ∈
      (main scenarioB "C:\\t" ["yes\n"] 2).g.effects ∧
    Effect.file "C:\\t\\a.txt" FileOp.remove ∈ (main scenarioB "C:\\t" ["yes\n"] 2).g.effects ∧
    rmdirCalls (main scenarioB "C:\\t" ["yes\n"] 2).g.effects = ["C:\\t\\sub", "C:\\t"] ∧
    (main scenarioB "C:\\t" ["yes\n", "no\n"] 2).g.effects = [] := by
  decide

/-! ## Count conservation below a root directory -/

/-- A confirmed run over a root directory that can be enumerated, when it
returns: no more files and directories are deleted than were found, and both
counts are equal exactly when no failure was recorded. -/
theorem directory_root_count_conservation (root : RootEnv) (starting_point : String)
    (stdin : List String) (fuel : Nat) (files directories : Int) (out : List Out)
    (hstatus : root.status = none) (hfind : root.findError = none)
    (hq : (QueryUser files directories (deliveries (stdin.flatMap String.data)) (some [])
      out).reply = Reply.answered true)
    (hexit : (main root starting_point stdin fuel).exit ≠ Exit.outOfFuel) :
    (main root starting_point stdin fuel).g.nTotalFilesDeleted ≤
        (main root starting_point stdin fuel).g.nTotalFiles ∧
      (main root starting_point stdin fuel).g.nTotalDirectoriesDeleted ≤
        (main root starting_point stdin fuel).g.nTotalDirectories ∧
      (((main root starting_point stdin fuel).g.nTotalFilesDeleted =
          (main root starting_point stdin fuel).g.nTotalFiles ∧
        (main root starting_point stdin fuel).g.nTotalDirectoriesDeleted =
          (main root starting_point stdin fuel).g.nTotalDirectories) ↔
        ((main root starting_point stdin fuel).g.nErrors = 0 ∧
          (main root starting_point stdin fuel).g.strCannotDeleteList = [])) := by
  obtain ⟨lines, hc⟩ := ProcessDirectory_count_root fuel root.scan starting_point Globals.initial
  rw [← hstatus, ← hfind] at hc
  have hfound : (Globals.initial.counted (numFiles root.scan) (reportedBytes root.scan)
      (numSubdirs root.scan + 1) lines).nTotalFiles +
      (Globals.initial.counted (numFiles root.scan) (reportedBytes root.scan)
      (numSubdirs root.scan + 1) lines).nTotalDirectories ≠ 0 := by
    simp only [Globals.counted, Globals.initial]
    push_cast
    omega
  have hq1 := hq
  rw [QueryUser_reply_indep files directories _ _ _ _ out _] at hq1
  cases hd : ProcessDirectory fuel root.status root.findError root.scan starting_point "" 0
      true (startDestroy _ (QueryUser _ _ (deliveries (stdin.flatMap String.data)) (some [])
        _).out) with
  | none =>
    rw [main_confirmed root starting_point stdin fuel _ hc hfound hq1, hd] at hexit
    simp at hexit
  | some g4 =>
    obtain ⟨more, hm, _, _⟩ :=
      main_confirmed_state root starting_point stdin fuel _ g4 hc hfound hq1 hd
    rw [hm]
    simp only
    rw [hstatus, hfind] at hd
    obtain ⟨g2, hdes, hg4⟩ := ProcessDirectory_destroyed_root fuel root.scan starting_point
      _ g4 hd
    obtain ⟨_, a2, a3, a4, a5, a6, a7, a8, a9, _⟩ := hdes
    simp only [startDestroy, Globals.counted, Globals.initial, List.length_nil]
      at a2 a3 a4 a5 a6 a7 a8 a9
    have hn4 : g4.nErrors = g2.nErrors := by rw [hg4]
    have hd4 : g4.nTotalDirectoriesDeleted = g2.nTotalDirectoriesDeleted := by rw [hg4]
    have hf4 : g4.nTotalFilesDeleted = g2.nTotalFilesDeleted := by rw [hg4]
    have ht4 : g4.nTotalDirectories = g2.nTotalDirectories + 1 := by rw [hg4]
    have hs4 : g4.nTotalFiles = g2.nTotalFiles := by rw [hg4]
    have hl4 : g4.strCannotDeleteList = g2.strCannotDeleteList := by rw [hg4]
    have hlen : g2.strCannotDeleteList = [] ↔ g2.nErrors = 0 := by
      rw [← List.length_eq_zero]
      omega
    unfold afterRoot
    by_cases h0 : g4.nErrors = 0
    · rw [if_pos h0]
      have hl0 : g2.strCannotDeleteList = [] := hlen.2 (by omega)
      cases hr : root.rmdirError with
      | some text =>
        simp only [DeleteDirectory, hl4, hl0]
        refine ⟨by omega, by omega, ?_⟩
        constructor
        · intro h; omega
        · intro h; omega
      | none =>
        simp only [DeleteDirectory, hl4, hl0]
        refine ⟨by omega, by omega, ?_⟩
        constructor
        · intro _; exact ⟨h0, trivial⟩
        · intro _; constructor <;> omega
    · rw [if_neg h0]
      refine ⟨by omega, by omega, ?_⟩
      constructor
      · intro h; omega
      · intro h; exact absurd h.1 h0

end SecureDelete
